import Mathlib

/-!
Verification of the REMUS RLF / ADCP binary-log parsers
(`remus_rlf.py`, `remus_adcp.py`) against their specification.

The Python sources are shallowly embedded: byte buffers are `List ℕ`
(each entry one byte), machine integers are `ℕ`/`ℤ` with the explicit
wrap-arounds the code performs, IEEE-754 fields are decoded from their
bit patterns into `Option ℚ` (`none` for NaN/Inf, which numpy would
propagate as missing), and Python exceptions (`struct.error`,
`IndexError`, `ValueError`) become an `Except PyErr` result.
`while`-loops that walk a cursor over the buffer are embedded as
structural recursion on an explicit fuel argument which is always
initialised to `d.length`; a congruence lemma shows that the result is
independent of the fuel once the fuel dominates the remaining bytes, so
the embedding computes exactly the loop's result.

Python dictionaries keyed by record-name strings are keyed here by the
record-type code itself; `RECORD_NAMES` in the source is injective on
the known codes and unknown codes get the synthesized name
`Unknown_0x{code:04x}` (also injective), so this relabelling is a
bijection on keys.  Fields of the source that are plain strings
(`orientation`, `coord_transform`) are embedded as small codes, again
bijectively.
-/

/-- Python exception kinds raised by the parsers: `struct.error` from
`struct.unpack_from` on an out-of-range offset, `IndexError` from
indexing (e.g. `ts[0]` on an empty array), and `ValueError`
(in `parse_adc` the only `ValueError` is the named structural error
`No valid PD0 ensemble found`). -/
inductive PyErr where
  | structErr : PyErr
  | indexErr : PyErr
  | valueErr : PyErr
deriving DecidableEq, Repr

instance {ε α : Type} [DecidableEq ε] [DecidableEq α] : DecidableEq (Except ε α)
  | .error e, .error f =>
    if h : e = f then .isTrue (by rw [h]) else .isFalse (by simp [h])
  | .error _, .ok _ => .isFalse (by simp)
  | .ok _, .error _ => .isFalse (by simp)
  | .ok a, .ok b =>
    if h : a = b then .isTrue (by rw [h]) else .isFalse (by simp [h])

/-- A byte buffer: one natural number per byte. -/
abbrev Bytes := List ℕ

/-- Little-endian `uint16` at offset `i`; used only where the source's
loop bound already guarantees the two bytes are in range, so the
`getD` default is never taken. -/
def u16le (d : Bytes) (i : ℕ) : ℕ := d.getD i 0 + 256 * d.getD (i + 1) 0

/-- Little-endian `uint32` from four bytes. -/
def u32of (b0 b1 b2 b3 : ℕ) : ℕ := b0 + 256 * b1 + 65536 * b2 + 16777216 * b3

/-- `data[a:b]` on a byte buffer. -/
def byteSlice (d : Bytes) (a b : ℕ) : Bytes := (d.drop a).take (b - a)

/-- Bounds-checked single byte read, `data[i]` (raises `IndexError`
out of range). -/
def readU8E (d : Bytes) (i : ℕ) : Except PyErr ℕ :=
  if h : i < d.length then .ok (d.get ⟨i, h⟩) else .error .indexErr

/-- Bounds-checked `struct.unpack_from these two bytes` is modelled by
checking `i + 2 ≤ len` exactly as `struct.unpack_from` does and then
reading little-endian. -/
def readU16E (d : Bytes) (i : ℕ) : Except PyErr ℕ :=
  if i + 2 ≤ d.length then .ok (u16le d i) else .error .structErr

/-- Two's-complement reinterpretation of a 16-bit unsigned value. -/
def toI16 (v : ℕ) : ℤ := if v < 32768 then (v : ℤ) else (v : ℤ) - 65536

/-- Bounds-checked signed 16-bit read (`struct.unpack_from` with
format `<h`). -/
def readI16E (d : Bytes) (i : ℕ) : Except PyErr ℤ :=
  if i + 2 ≤ d.length then .ok (toI16 (u16le d i)) else .error .structErr

/-- Bounds-checked unsigned 32-bit read (`struct.unpack_from` with
format `<I`). -/
def readU32E (d : Bytes) (i : ℕ) : Except PyErr ℕ :=
  if i + 4 ≤ d.length then
    .ok (u32of (d.getD i 0) (d.getD (i + 1) 0) (d.getD (i + 2) 0) (d.getD (i + 3) 0))
  else .error .structErr

/-- Value of an IEEE-754 single-precision bit pattern, as an exact
rational; `none` for NaN and the infinities (which numpy propagates as
non-finite floats). -/
def decodeF32bits (b : ℕ) : Option ℚ :=
  let s := b / 2 ^ 31
  let e := b / 2 ^ 23 % 2 ^ 8
  let m := b % 2 ^ 23
  if e = 255 then none
  else
    let mag : ℚ := (if e = 0 then (m * 2 : ℕ) else ((2 ^ 23 + m) * 2 ^ e : ℕ)) / (2 ^ 150 : ℕ)
    some (if s = 1 then -mag else mag)

/-- Value of an IEEE-754 double-precision bit pattern, as an exact
rational; `none` for NaN and the infinities. -/
def decodeF64bits (b : ℕ) : Option ℚ :=
  let s := b / 2 ^ 63
  let e := b / 2 ^ 52 % 2 ^ 11
  let m := b % 2 ^ 52
  if e = 2047 then none
  else
    let mag : ℚ := (if e = 0 then (m * 2 : ℕ) else ((2 ^ 52 + m) * 2 ^ e : ℕ)) / (2 ^ 1075 : ℕ)
    some (if s = 1 then -mag else mag)

/-- Bounds-checked `float32` read (`struct.unpack_from` with format
`<f`). -/
def readF32E (d : Bytes) (i : ℕ) : Except PyErr (Option ℚ) :=
  if i + 4 ≤ d.length then
    .ok (decodeF32bits (u32of (d.getD i 0) (d.getD (i + 1) 0) (d.getD (i + 2) 0) (d.getD (i + 3) 0)))
  else .error .structErr

/-- Bounds-checked `float64` read (`struct.unpack_from` with format
`<d`). -/
def readF64E (d : Bytes) (i : ℕ) : Except PyErr (Option ℚ) :=
  if i + 8 ≤ d.length then
    .ok (decodeF64bits
      (u32of (d.getD i 0) (d.getD (i + 1) 0) (d.getD (i + 2) 0) (d.getD (i + 3) 0) +
        2 ^ 32 * u32of (d.getD (i + 4) 0) (d.getD (i + 5) 0) (d.getD (i + 6) 0) (d.getD (i + 7) 0)))
  else .error .structErr

/-! ## Frame scanner (`parse_raw_records`, remus_rlf.py lines 157-172)

The `while pos < end` loop (with `end = len(data) - HEADER_SIZE`) is
embedded as recursion on fuel; `scanFrames` lists the `(rtype, payload)`
frames in the order the cursor emits them, and `parse_raw_records`
groups them into the insertion-ordered dictionary exactly as the
source's `records.setdefault(rtype, []).append(payload)` does. -/

/-- Record-type codes used by the claims (remus_rlf.py constants). -/
def REC_NAV : ℕ := 0x044e

def REC_MODEM_LOG : ℕ := 0x0424

def REC_SIDESCAN : ℕ := 0x03f7

def REC_GPS : ℕ := 0x03f9

def REC_NAV_ACOUSTIC : ℕ := 0x041a

/-- One step of the scanner per unit of fuel.  The loop condition,
marker test, header decode, bound check and cursor moves are literal
transcriptions of the source; the emitted `(rtype, payload)` pairs are
in cursor order. -/
def scanFramesAux (d : Bytes) : ℕ → ℕ → List (ℕ × Bytes)
  | 0, _ => []
  | fuel + 1, pos =>
    if pos < d.length - 8 then
      if d.getD pos 0 = 0xEB ∧ d.getD (pos + 1) 0 = 0x90 then
        let rtype := u16le d (pos + 4)
        let plen := u16le d (pos + 6)
        let pend := pos + 8 + plen
        if pend ≤ d.length then
          (rtype, byteSlice d (pos + 8) pend) :: scanFramesAux d fuel pend
        else
          scanFramesAux d fuel (pos + 1)
      else
        scanFramesAux d fuel (pos + 1)
    else
      []

/-- All frames the scanner emits from the start of the buffer. -/
def scanFrames (d : Bytes) : List (ℕ × Bytes) := scanFramesAux d d.length 0

/-- `records.setdefault(rtype, []).append(payload)`: append to the
existing key's list, else insert the key at the end (Python dicts
preserve insertion order). -/
def addRecord (recs : List (ℕ × List Bytes)) (t : ℕ) (p : Bytes) : List (ℕ × List Bytes) :=
  match recs with
  | [] => [(t, [p])]
  | (t', ps) :: rest =>
    if t' = t then (t', ps ++ [p]) :: rest else (t', ps) :: addRecord rest t p

/-- `parse_raw_records`: group the scanned frames by record type. -/
def parse_raw_records (d : Bytes) : List (ℕ × List Bytes) :=
  (scanFrames d).foldl (fun recs f => addRecord recs f.1 f.2) []

/-- Dictionary lookup (`records.get(rtype)`). -/
def recLookup (recs : List (ℕ × List Bytes)) (t : ℕ) : Option (List Bytes) :=
  match recs with
  | [] => none
  | (t', ps) :: rest => if t' = t then some ps else recLookup rest t

/-- Number of payloads stored under key `t` (0 when absent). -/
def recCount (recs : List (ℕ × List Bytes)) (t : ℕ) : ℕ :=
  ((recLookup recs t).getD []).length

/-- Total number of payloads over all keys. -/
def recTotal (recs : List (ℕ × List Bytes)) : ℕ :=
  (recs.map (fun e => e.2.length)).sum

/-! Synthetic frames for the round-trip property (spec section 8). -/

/-- A frame as the spec describes it: magic bytes, a checksum the
scanner ignores, a type code, and the payload whose declared length
matches the bytes that follow. -/
structure RawFrame where
  rtype : ℕ
  cksum : ℕ
  payload : Bytes
deriving DecidableEq, Repr

/-- Serialise one frame: magic 0xEB 0x90, u16 LE checksum, u16 LE type,
u16 LE payload length, payload bytes. -/
def encodeFrame (f : RawFrame) : Bytes :=
  0xEB :: 0x90 :: (f.cksum % 256) :: (f.cksum / 256) :: (f.rtype % 256) :: (f.rtype / 256) ::
    (f.payload.length % 256) :: (f.payload.length / 256) :: f.payload

/-- Concatenation of valid frames with no inserted garbage. -/
def encodeFrames (fs : List RawFrame) : Bytes := (fs.map encodeFrame).flatten

/-- Header fields fit their 16-bit header slots. -/
def frameWF (f : RawFrame) : Prop :=
  f.cksum < 65536 ∧ f.rtype < 65536 ∧ f.payload.length < 65536

instance : DecidablePred frameWF := fun f => by unfold frameWF; infer_instance

/-- Spec-side description of the scanner's output (from the spec's
words, for the round-trip claim): the payloads of the frames of one
type, in original order. -/
def groupByTypeSpec (fs : List RawFrame) (t : ℕ) : List Bytes :=
  (fs.filter (fun f => f.rtype = t)).map (fun f => f.payload)

/-! ## Timestamp normalizer (`unwrap_timestamps`, remus_rlf.py lines 175-196)

`ts = ts_raw.astype(float64)` is exact for `uint32` inputs, and every
arithmetic step of the loop is exact in `float64` for any realistic
number of midnight rollovers, so the function is embedded over `ℤ`
with the final division performed in `ℚ` (float64 division is monotone
and maps 0 to 0, so the order-theoretic claims transfer verbatim). -/

/-- `np.where(ts > 0x7FFFFFFF, ts - 0x80000000, ts)`: mask bit 31. -/
def maskTs (t : ℕ) : ℤ := if (t : ℤ) > 0x7FFFFFFF then (t : ℤ) - 0x80000000 else (t : ℤ)

/-- The rollover loop.  `ts[i:] += 86_400_000` adds the same amount to
the compared pair at every later step, so carrying the accumulated
shift `c` alongside the previous *shifted* value `prev` reproduces the
in-place updates exactly. -/
def unwrapAux (prev c : ℤ) : List ℤ → List ℤ
  | [] => []
  | x :: xs =>
    if x + c - prev < -1000000 then
      (x + c + 86400000) :: unwrapAux (x + c + 86400000) (c + 86400000) xs
    else
      (x + c) :: unwrapAux (x + c) c xs

/-- `unwrap_timestamps`: mask bit 31, unwrap midnight rollovers, and
return `(ts - ts[0]) / 3_600_000` in hours.  `ts[0]` on an empty array
raises `IndexError`. -/
def unwrap_timestamps (ts_raw : List ℕ) : Except PyErr (List ℚ) :=
  match ts_raw.map maskTs with
  | [] => .error .indexErr
  | h :: t =>
    let us := h :: unwrapAux h 0 t
    .ok (us.map (fun u => ((u - h : ℤ) : ℚ) / 3600000))

/-! ## Record decoders (remus_rlf.py)

Each decoder is embedded as a per-payload row extraction (`mapM` over
the payload list mirroring the `for i, p in enumerate(payloads)` loop,
with the same short-circuit on the first failing `struct.unpack_from`)
followed by the assembly of the structure-of-arrays output. -/


/-- Monadic map over `Except`, structurally recursive (the shape of the
sources' `for` loops: stop at the first failing extraction). -/
def mapME {a b : Type} (f : a → Except PyErr b) : List a → Except PyErr (List b)
  | [] => .ok []
  | x :: xs => do
    let y ← f x
    let ys ← mapME f xs
    .ok (y :: ys)

/-- Sentinel value used by MSTL sidescan for invalid data
(`SIDESCAN_SENTINEL = -32.768`). -/
def SIDESCAN_SENTINEL : ℚ := -32768 / 1000

/-- One Navigation record row (`decode_nav` body, 0x044e). -/
structure NavRow where
  lat : Option ℚ
  lon : Option ℚ
  ts_raw : ℕ
  speed : Option ℚ
  alt_max_range : ℕ
  pitch : Option ℚ
  depth : Option ℚ
  undecoded_f42 : Option ℚ
deriving DecidableEq, Repr

/-- Field extraction for one Navigation payload, in source order. -/
def decodeNavOne (p : Bytes) : Except PyErr NavRow := do
  let lat ← readF64E p 0
  let lon ← readF64E p 8
  let tsr ← readU32E p 16
  let speed ← readF32E p 20
  let amr ← readU16E p 24
  let pitch ← readF32E p 26
  let depth ← readF32E p 34
  let und ← readF32E p 42
  .ok ⟨lat, lon, tsr, speed, amr, pitch, depth, und⟩

/-- `decode_nav` output: structure of arrays plus the derived hours
axis. -/
structure NavOut where
  lat : List (Option ℚ)
  lon : List (Option ℚ)
  ts_raw : List ℕ
  speed : List (Option ℚ)
  alt_max_range : List ℕ
  pitch : List (Option ℚ)
  depth : List (Option ℚ)
  undecoded_f42 : List (Option ℚ)
  t_hrs : List ℚ
deriving DecidableEq, Repr

/-- `decode_nav` (remus_rlf.py lines 203-240). -/
def decode_nav (payloads : List Bytes) : Except PyErr NavOut := do
  let rows ← mapME decodeNavOne payloads
  let th ← unwrap_timestamps (rows.map (fun r => r.ts_raw))
  .ok ⟨rows.map (fun r => r.lat), rows.map (fun r => r.lon), rows.map (fun r => r.ts_raw),
    rows.map (fun r => r.speed), rows.map (fun r => r.alt_max_range),
    rows.map (fun r => r.pitch), rows.map (fun r => r.depth),
    rows.map (fun r => r.undecoded_f42), th⟩

/-- One Sidescan record row before sentinel masking (`decode_sidescan`
body, 0x03f7). -/
structure SidescanRow where
  lat : Option ℚ
  lon : Option ℚ
  altitude : Option ℚ
  depth : Option ℚ
  temperature : Option ℚ
  heading : Option ℚ
deriving DecidableEq, Repr

/-- Field extraction for one Sidescan payload. -/
def decodeSidescanOne (p : Bytes) : Except PyErr SidescanRow := do
  let lat ← readF32E p 0
  let lon ← readF32E p 4
  let alt ← readF32E p 8
  let depth ← readF32E p 12
  let temp ← readF32E p 32
  let hdg ← readF32E p 38
  .ok ⟨lat, lon, alt, depth, temp, hdg⟩

/-- `np.where(np.abs(x - SIDESCAN_SENTINEL) < 0.01, np.nan, x)` on one
entry: an already-NaN entry fails the comparison and stays NaN. -/
def maskSidescan (v : Option ℚ) : Option ℚ :=
  match v with
  | none => none
  | some x => if |x - SIDESCAN_SENTINEL| < 1 / 100 then none else some x

/-- `decode_sidescan` output. -/
structure SidescanOut where
  lat : List (Option ℚ)
  lon : List (Option ℚ)
  altitude : List (Option ℚ)
  depth : List (Option ℚ)
  temperature : List (Option ℚ)
  heading : List (Option ℚ)
deriving DecidableEq, Repr

/-- `decode_sidescan` (remus_rlf.py lines 399-433): extract the six
float fields, then replace values within 0.01 of the sentinel by NaN
for `altitude`, `depth` and `temperature`. -/
def decode_sidescan (payloads : List Bytes) : Except PyErr SidescanOut := do
  let rows ← mapME decodeSidescanOne payloads
  .ok ⟨rows.map (fun r => r.lat), rows.map (fun r => r.lon),
    rows.map (fun r => maskSidescan r.altitude), rows.map (fun r => maskSidescan r.depth),
    rows.map (fun r => maskSidescan r.temperature), rows.map (fun r => r.heading)⟩

/-- `decode_gps` output (0x03f9): two float arrays of length N plus a
list holding only the non-empty ASCII extracts. -/
structure GpsOut where
  lat : List (Option ℚ)
  lon : List (Option ℚ)
  ascii_content : List Bytes
deriving DecidableEq, Repr

/-- The printable-ASCII filter `bytes(b for b in p[31:] if 0x20 <= b < 0x7F)`. -/
def gpsText (p : Bytes) : Bytes := (p.drop 31).filter (fun b => 0x20 ≤ b ∧ b < 0x7F)

/-- `decode_gps` (remus_rlf.py lines 501-526): lat/lon per payload; the
text of a payload is appended to `ascii_content` only when non-empty. -/
def decode_gps (payloads : List Bytes) : Except PyErr GpsOut := do
  let rows ← mapME (fun p => do
    let lat ← readF64E p 0
    let lon ← readF64E p 8
    .ok (lat, lon, gpsText p)) payloads
  .ok ⟨rows.map (fun r => r.1), rows.map (fun r => r.2.1),
    (rows.map (fun r => r.2.2)).filter (fun t => t ≠ [])⟩

/-- One Nav/Acoustic record row (`decode_nav_acoustic` body, 0x041a). -/
structure NavAcRow where
  heading_dvl : Option ℚ
  sound_speed_dvl : Option ℚ
  lat : Option ℚ
  lon : Option ℚ
  heading : Option ℚ
  sound_speed : Option ℚ
deriving DecidableEq, Repr

/-- `lat if (15 < abs(lat) < 90) else np.nan` on one entry (NaN fails
both comparisons and stays NaN). -/
def plausibleWindow (lo hi : ℚ) (v : Option ℚ) : Option ℚ :=
  match v with
  | none => none
  | some x => if lo < |x| ∧ |x| < hi then some x else none

/-- `np.where(x == -1.0, np.nan, x)` on one entry. -/
def maskMinusOne (v : Option ℚ) : Option ℚ :=
  match v with
  | none => none
  | some x => if x = -1 then none else some x

/-- Field extraction for one Nav/Acoustic payload, with the lat/lon
plausibility windows applied inside the loop as in the source. -/
def decodeNavAcousticOne (p : Bytes) : Except PyErr NavAcRow := do
  let hdvl ← readF32E p 8
  let ssdvl ← readF32E p 12
  let lat ← readF64E p 24
  let lon ← readF64E p 32
  let hdg ← readF32E p 40
  let ss ← readF32E p 44
  .ok ⟨hdvl, ssdvl, plausibleWindow 15 90 lat, plausibleWindow 90 180 lon, hdg, ss⟩

/-- `decode_nav_acoustic` output. -/
structure NavAcOut where
  heading_dvl : List (Option ℚ)
  sound_speed_dvl : List (Option ℚ)
  lat : List (Option ℚ)
  lon : List (Option ℚ)
  heading : List (Option ℚ)
  sound_speed : List (Option ℚ)
deriving DecidableEq, Repr

/-- `decode_nav_acoustic` (remus_rlf.py lines 792-830): extract fields,
then replace the exact value -1.0 by NaN for the two DVL channels. -/
def decode_nav_acoustic (payloads : List Bytes) : Except PyErr NavAcOut := do
  let rows ← mapME decodeNavAcousticOne payloads
  .ok ⟨rows.map (fun r => maskMinusOne r.heading_dvl),
    rows.map (fun r => maskMinusOne r.sound_speed_dvl),
    rows.map (fun r => r.lat), rows.map (fun r => r.lon),
    rows.map (fun r => r.heading), rows.map (fun r => r.sound_speed)⟩

/-! ## Position-interpolated timestamper (`_stamp_by_position`,
remus_rlf.py lines 1338-1384)

The offset-collecting loop has exactly the frame scanner's structure
(same loop bound, marker test, bound check and cursor moves); it only
records start offsets instead of payloads, into `ref_pos` for the
reference type and — via the `elif` — into `target_pos` for a distinct
target type. -/

/-- One step of the offset-collecting scan per unit of fuel. -/
def stampScanAux (d : Bytes) (ref_type target_type : ℕ) : ℕ → ℕ → List ℕ × List ℕ
  | 0, _ => ([], [])
  | fuel + 1, pos =>
    if pos < d.length - 8 then
      if d.getD pos 0 = 0xEB ∧ d.getD (pos + 1) 0 = 0x90 then
        let rtype := u16le d (pos + 4)
        let plen := u16le d (pos + 6)
        let pend := pos + 8 + plen
        if pend ≤ d.length then
          let rest := stampScanAux d ref_type target_type fuel pend
          if rtype = ref_type then (pos :: rest.1, rest.2)
          else if rtype = target_type then (rest.1, pos :: rest.2)
          else rest
        else
          stampScanAux d ref_type target_type fuel (pos + 1)
      else
        stampScanAux d ref_type target_type fuel (pos + 1)
    else
      ([], [])

/-- The `(ref_pos, target_pos)` offset lists for a whole buffer. -/
def stampScan (d : Bytes) (ref_type target_type : ℕ) : List ℕ × List ℕ :=
  stampScanAux d ref_type target_type d.length 0

/-- `np.interp` over an increasing abscissa list: clamp to the end
values, linear in between.  (Equal neighbouring abscissae cannot occur
for the strictly increasing frame offsets this file applies it to.) -/
def interpPts : List (ℚ × ℚ) → ℚ → ℚ
  | [], _ => 0
  | [(_, y0)], _ => y0
  | (x0, y0) :: (x1, y1) :: rest, x =>
    if x ≤ x0 then y0
    else if x ≤ x1 then y0 + (y1 - y0) * (x - x0) / (x1 - x0)
    else interpPts ((x1, y1) :: rest) x

/-- `np.interp(x, xp, fp)`: `ValueError` when `xp` and `fp` differ in
length or are empty. -/
def npInterp (x xp fp : List ℚ) : Except PyErr (List ℚ) :=
  if xp.length = fp.length ∧ xp ≠ [] then .ok (x.map (interpPts (xp.zip fp)))
  else .error .valueErr

/-- `_stamp_by_position(data, target_type, ref_type, ref_t_hrs)`:
collect offsets, return `np.zeros(len(target_pos))` when either list
is empty, else interpolate. -/
def stamp_by_position (d : Bytes) (target_type ref_type : ℕ) (ref_t_hrs : List ℚ) :
    Except PyErr (List ℚ) :=
  let s := stampScan d ref_type target_type
  if s.1 = [] ∨ s.2 = [] then .ok (List.replicate s.2.length 0)
  else npInterp (s.2.map (fun p => (p : ℚ))) (s.1.map (fun p => (p : ℚ))) ref_t_hrs

/-! ## `parse_rlf` decode stage (remus_rlf.py lines 1387-1443)

`parse_rlf` reads the file, calls `parse_raw_records`, then walks the
raw dictionary in insertion order building the summary entry for each
type and calling the registered decoder.  A decoder exception
propagates and aborts the call.  The embedding covers the registered
decoders that the claims exercise (`decode_nav`, `decode_sidescan`,
`decode_gps`, `decode_nav_acoustic`); frames of any other type take
the raw-payload path here, which in the source happens exactly for
the types with no registered decoder.  The modem-timestamp attachment
step only fires when the acoustic-modem decoder (not embedded, not
exercised by any claim) has produced a dict, so it is omitted.
Dictionary keys are the record-type codes (see the file comment). -/

/-- Decoded value stored under one record-type key. -/
inductive DecodedValue where
  | navV : NavOut → DecodedValue
  | sidescanV : SidescanOut → DecodedValue
  | gpsV : GpsOut → DecodedValue
  | navAcousticV : NavAcOut → DecodedValue
  | rawV : List Bytes → DecodedValue
deriving DecidableEq, Repr

/-- The `_DECODERS` registry, restricted to the embedded decoders. -/
def decoderFor (rtype : ℕ) : Option (List Bytes → Except PyErr DecodedValue) :=
  if rtype = REC_NAV then some (fun ps => (decode_nav ps).map .navV)
  else if rtype = REC_SIDESCAN then some (fun ps => (decode_sidescan ps).map .sidescanV)
  else if rtype = REC_GPS then some (fun ps => (decode_gps ps).map .gpsV)
  else if rtype = REC_NAV_ACOUSTIC then some (fun ps => (decode_nav_acoustic ps).map .navAcousticV)
  else none

/-- One summary row: `{'type_hex', 'count', 'payload_bytes'}` (the
type code stands in for its hex string). -/
structure SummaryRow where
  type_code : ℕ
  count : ℕ
  payload_bytes : ℕ
deriving DecidableEq, Repr

/-- `parse_rlf` decoded result: the per-type decoded values, the
`_raw` dictionary and the `_summary` table. -/
structure RlfResult where
  result : List (ℕ × DecodedValue)
  raw : List (ℕ × List Bytes)
  summary : List (ℕ × SummaryRow)
deriving DecidableEq, Repr

/-- The decode loop body for one `(rtype, payloads)` item. -/
def parseRlfStep (acc : List (ℕ × DecodedValue) × List (ℕ × SummaryRow))
    (item : ℕ × List Bytes) : Except PyErr (List (ℕ × DecodedValue) × List (ℕ × SummaryRow)) := do
  let summ := acc.2 ++ [(item.1,
    ⟨item.1, item.2.length, (item.2.headI).length⟩)]
  match decoderFor item.1 with
  | some dec => do
    let v ← dec item.2
    .ok (acc.1 ++ [(item.1, v)], summ)
  | none => .ok (acc.1 ++ [(item.1, .rawV item.2)], summ)

/-- The decode loop of `parse_rlf` over the raw dictionary's items in
insertion order. -/
def parseRlfLoop : List (ℕ × List Bytes) →
    List (ℕ × DecodedValue) × List (ℕ × SummaryRow) →
    Except PyErr (List (ℕ × DecodedValue) × List (ℕ × SummaryRow))
  | [], acc => .ok acc
  | item :: rest, acc => do
    let acc' ← parseRlfStep acc item
    parseRlfLoop rest acc'

/-- `parse_rlf` with `decode=True`, from the in-memory buffer onward. -/
def parse_rlf (d : Bytes) : Except PyErr RlfResult := do
  let raw := parse_raw_records d
  let st ← parseRlfLoop raw ([], [])
  .ok ⟨st.1, raw, st.2⟩

/-! ## PD0 ensemble parser (`parse_adc`, remus_adcp.py lines 161-292)

Pass 1 (`while pos + 6 < len(data)`) locates ensemble start offsets
and decodes the first fixed leader found; it `break`s out of the scan
when a marker's computed ensemble size overruns the buffer.  Pass 2
walks every located ensemble's sub-block offset table and dispatches
on the 2-byte type tags.  `np.empty` scalar arrays are modelled as
zero-filled (their unwritten entries are unspecified in the source and
no claim concerns them); the `np.full`/`np.zeros` pre-fills are exact.
`orientation` is embedded as `Bool` (`true` = Up) and
`coord_transform` as its 2-bit code. -/

/-- PD0 data type IDs (remus_adcp.py). -/
def PD0_FIXED_LEADER : ℕ := 0x0000

def PD0_VARIABLE_LEADER : ℕ := 0x0080

def PD0_VELOCITY : ℕ := 0x0100

def PD0_CORRELATION : ℕ := 0x0200

def PD0_ECHO_INTENSITY : ℕ := 0x0300

def PD0_PERCENT_GOOD : ℕ := 0x0400

def PD0_BOTTOM_TRACK : ℕ := 0x0600

/-- `FREQ_MAP.get(code, 0)`. -/
def freqMap (c : ℕ) : ℕ :=
  if c = 0 then 75 else if c = 1 then 150 else if c = 2 then 300
  else if c = 3 then 600 else if c = 4 then 1200 else if c = 5 then 2400 else 0

/-- `_parse_fixed_leader` result. -/
structure FixedLeader where
  fw_version : ℕ
  fw_revision : ℕ
  sys_config : ℕ
  frequency_khz : ℕ
  beam_angle : ℕ
  n_beams : ℕ
  orientation : Bool
  n_cells : ℕ
  pings_per_ens : ℕ
  cell_size_cm : ℕ
  blank_cm : ℕ
  coord_transform : ℕ
deriving DecidableEq, Repr

/-- `_parse_fixed_leader(data, offset)` (remus_adcp.py lines 55-71). -/
def parse_fixed_leader (d : Bytes) (o : ℕ) : Except PyErr FixedLeader := do
  let fwv ← readU8E d (o + 2)
  let fwr ← readU8E d (o + 3)
  let sc ← readU16E d (o + 4)
  let ncells ← readU8E d (o + 9)
  let pings ← readU16E d (o + 10)
  let csize ← readU16E d (o + 12)
  let blank ← readU16E d (o + 14)
  let b25 ← readU8E d (o + 25)
  .ok ⟨fwv, fwr, sc, freqMap (sc % 8), if sc / 16 % 4 = 0 then 20 else 30,
    if sc / 16 % 2 = 0 then 4 else 5, sc / 128 % 2 = 1,
    ncells, pings, csize, blank, b25 / 8 % 4⟩

/-- `_parse_variable_leader` result. -/
structure VariableLeader where
  ensemble_number : ℕ
  year : ℕ
  month : ℕ
  day : ℕ
  hour : ℕ
  minute : ℕ
  second : ℕ
  hundredths : ℕ
  depth_dm : ℕ
  heading_cdeg : ℕ
  pitch_cdeg : ℤ
  roll_cdeg : ℤ
  salinity_ppt : ℕ
  temperature_cdeg : ℤ
deriving DecidableEq, Repr

/-- `_parse_variable_leader(data, offset)` (remus_adcp.py lines 74-104). -/
def parse_variable_leader (d : Bytes) (o : ℕ) : Except PyErr VariableLeader := do
  let ensLo ← readU16E d (o + 2)
  let year ← readU8E d (o + 4)
  let month ← readU8E d (o + 5)
  let day ← readU8E d (o + 6)
  let hour ← readU8E d (o + 7)
  let minute ← readU8E d (o + 8)
  let second ← readU8E d (o + 9)
  let hsec ← readU8E d (o + 10)
  let ensHi ← readU8E d (o + 11)
  let depth ← readU16E d (o + 14)
  let hdg ← readU16E d (o + 18)
  let pitch ← readI16E d (o + 20)
  let roll ← readI16E d (o + 22)
  let sal ← readU16E d (o + 24)
  let temp ← readI16E d (o + 26)
  .ok ⟨ensLo + ensHi * 65536, if year < 100 then 2000 + year else year,
    month, day, hour, minute, second, hsec, depth, hdg, pitch, roll, sal, temp⟩

/-- `_parse_velocity(data, offset, n_cells)` (remus_adcp.py lines
107-114): `n_cells × 4` signed 16-bit values in mm/s, starting two
bytes past the type tag. -/
def parse_velocity (d : Bytes) (o : ℕ) (n_cells : ℕ) : Except PyErr (List (List ℤ)) :=
  mapME (fun c =>
    mapME (fun b => readI16E d (o + 2 + (c * 4 + b) * 2)) (List.range 4)) (List.range n_cells)

/-- `_parse_echo_intensity` (remus_adcp.py lines 117-124): `n_cells × 4`
bytes, starting two bytes past the type tag. -/
def parse_echo_intensity (d : Bytes) (o : ℕ) (n_cells : ℕ) : Except PyErr (List (List ℕ)) :=
  mapME (fun c =>
    mapME (fun b => readU8E d (o + 2 + c * 4 + b)) (List.range 4)) (List.range n_cells)

/-- `_parse_correlation` (remus_adcp.py lines 127-134): same layout as
echo intensity. -/
def parse_correlation (d : Bytes) (o : ℕ) (n_cells : ℕ) : Except PyErr (List (List ℕ)) :=
  mapME (fun c =>
    mapME (fun b => readU8E d (o + 2 + c * 4 + b)) (List.range 4)) (List.range n_cells)

/-- `_parse_percent_good` (remus_adcp.py lines 137-144): same layout
as echo intensity. -/
def parse_percent_good (d : Bytes) (o : ℕ) (n_cells : ℕ) : Except PyErr (List (List ℕ)) :=
  mapME (fun c =>
    mapME (fun b => readU8E d (o + 2 + c * 4 + b)) (List.range 4)) (List.range n_cells)

/-- `_parse_bottom_track` key fields used by `parse_adc`
(remus_adcp.py lines 147-158). -/
structure BottomTrack where
  bt_pings_per_ens : ℕ
  bt_range_cm : List ℕ
  bt_velocity_mms : List ℤ
deriving DecidableEq, Repr

/-- `_parse_bottom_track(data, offset)`. -/
def parse_bottom_track (d : Bytes) (o : ℕ) : Except PyErr BottomTrack := do
  let pings ← readU16E d (o + 2)
  let range ← mapME (fun b => readU16E d (o + 16 + 2 * b)) (List.range 4)
  let vel ← mapME (fun b => readI16E d (o + 24 + 2 * b)) (List.range 4)
  .ok ⟨pings, range, vel⟩

/-- The fixed-leader search over one ensemble's sub-block offset table
(`for j in range(n_dt): ... if dt_id == PD0_FIXED_LEADER: ... break`);
`k` counts the remaining iterations, `j` the current index. -/
def findFixedLeader (d : Bytes) (pos : ℕ) : ℕ → ℕ → Except PyErr (Option FixedLeader)
  | 0, _ => .ok none
  | k + 1, j => do
    let dtOff ← readU16E d (pos + 6 + 2 * j)
    let dtId ← readU16E d (pos + dtOff)
    if dtId = PD0_FIXED_LEADER then do
      let fl ← parse_fixed_leader d (pos + dtOff)
      .ok (some fl)
    else
      findFixedLeader d pos k (j + 1)

/-- Pass 1 of `parse_adc` (remus_adcp.py lines 195-215), one marker
test per unit of fuel: collect ensemble start offsets; stop at the
first marker whose computed size overruns the buffer (`break`); decode
the fixed leader of the first ensemble that has one. -/
def ensScanAux (d : Bytes) : ℕ → ℕ → Option FixedLeader → Except PyErr (List ℕ × Option FixedLeader)
  | 0, _, fl => .ok ([], fl)
  | fuel + 1, pos, fl =>
    if pos + 6 < d.length then
      if d.getD pos 0 = 0x7F ∧ d.getD (pos + 1) 0 = 0x7F then
        let ensBytes := u16le d (pos + 2)
        let ensSize := ensBytes + 2
        if pos + ensSize > d.length then .ok ([], fl)
        else do
          let fl' ← if fl.isNone then findFixedLeader d pos (d.getD (pos + 5) 0) 0 else .ok fl
          let rest ← ensScanAux d fuel (pos + ensSize) fl'
          .ok (pos :: rest.1, rest.2)
      else
        ensScanAux d fuel (pos + 1) fl
    else
      .ok ([], fl)

/-- Pass 1 over a whole buffer. -/
def ensScan (d : Bytes) : Except PyErr (List ℕ × Option FixedLeader) :=
  ensScanAux d d.length 0 none

/-- Wrap a value into `k` bits, two's complement (numpy assignment of
a Python int into an `intk` array element). -/
def wrapI (k : ℕ) (v : ℤ) : ℤ := (v + 2 ^ (k - 1)) % 2 ^ k - 2 ^ (k - 1)

/-- `parse_adc` output arrays (the dict built at remus_adcp.py lines
224-248; scalar time fields grouped with the rest).  Velocities are
mm/s (`-32768` = missing), attitude/temperature/depth are the divided
engineering values. -/
structure AdcOut where
  fixed_leader : FixedLeader
  n_ensembles : ℕ
  n_cells : ℕ
  ensemble_number : List ℤ
  year : List ℤ
  month : List ℤ
  day : List ℤ
  hour : List ℤ
  minute : List ℤ
  second : List ℤ
  hundredths : List ℤ
  heading : List ℚ
  pitch : List ℚ
  roll : List ℚ
  temperature : List ℚ
  depth : List ℚ
  salinity : List ℤ
  velocity : List (List (List ℤ))
  echo_intensity : List (List (List ℕ))
  correlation : List (List (List ℕ))
  percent_good : List (List (List ℕ))
  bt_range_cm : List (List ℕ)
  bt_velocity_mms : List (List ℤ)
deriving DecidableEq, Repr

/-- Dispatch of one sub-block of ensemble `i` (the branch chain at
remus_adcp.py lines 258-290). -/
def dispatchBlock (d : Bytes) (n_cells i : ℕ) (absOff dtId : ℕ) (out : AdcOut) :
    Except PyErr AdcOut := do
  if dtId = PD0_VARIABLE_LEADER then do
    let vl ← parse_variable_leader d absOff
    .ok { out with
      ensemble_number := out.ensemble_number.set i (wrapI 32 vl.ensemble_number),
      year := out.year.set i (wrapI 16 vl.year),
      month := out.month.set i (wrapI 8 vl.month),
      day := out.day.set i (wrapI 8 vl.day),
      hour := out.hour.set i (wrapI 8 vl.hour),
      minute := out.minute.set i (wrapI 8 vl.minute),
      second := out.second.set i (wrapI 8 vl.second),
      hundredths := out.hundredths.set i (wrapI 8 vl.hundredths),
      heading := out.heading.set i ((vl.heading_cdeg : ℚ) / 100),
      pitch := out.pitch.set i ((vl.pitch_cdeg : ℚ) / 100),
      roll := out.roll.set i ((vl.roll_cdeg : ℚ) / 100),
      temperature := out.temperature.set i ((vl.temperature_cdeg : ℚ) / 100),
      depth := out.depth.set i ((vl.depth_dm : ℚ) / 10),
      salinity := out.salinity.set i (wrapI 16 vl.salinity_ppt) }
  else if dtId = PD0_VELOCITY then do
    let v ← parse_velocity d absOff n_cells
    .ok { out with velocity := out.velocity.set i v }
  else if dtId = PD0_ECHO_INTENSITY then do
    let v ← parse_echo_intensity d absOff n_cells
    .ok { out with echo_intensity := out.echo_intensity.set i v }
  else if dtId = PD0_CORRELATION then do
    let v ← parse_correlation d absOff n_cells
    .ok { out with correlation := out.correlation.set i v }
  else if dtId = PD0_PERCENT_GOOD then do
    let v ← parse_percent_good d absOff n_cells
    .ok { out with percent_good := out.percent_good.set i v }
  else if dtId = PD0_BOTTOM_TRACK then do
    let bt ← parse_bottom_track d absOff
    .ok { out with
      bt_range_cm := out.bt_range_cm.set i bt.bt_range_cm,
      bt_velocity_mms := out.bt_velocity_mms.set i (bt.bt_velocity_mms.map (wrapI 16)) }
  else
    .ok out

/-- The inner `for j in range(n_dt)` loop of pass 2 for ensemble `i`
at offset `ensPos` (`k` remaining iterations, `j` current index). -/
def processSubblocks (d : Bytes) (n_cells i ensPos : ℕ) :
    ℕ → ℕ → AdcOut → Except PyErr AdcOut
  | 0, _, out => .ok out
  | k + 1, j, out => do
    let dtOff ← readU16E d (ensPos + 6 + 2 * j)
    let dtId ← readU16E d (ensPos + dtOff)
    let out' ← dispatchBlock d n_cells i (ensPos + dtOff) dtId out
    processSubblocks d n_cells i ensPos k (j + 1) out'

/-- Pass 2 for one ensemble. -/
def processEnsemble (d : Bytes) (n_cells : ℕ) (out : AdcOut) (ie : ℕ × ℕ) :
    Except PyErr AdcOut :=
  processSubblocks d n_cells ie.1 ie.2 (d.getD (ie.2 + 5) 0) 0 out

/-- The `for i, ens_pos in enumerate(ensembles)` loop of pass 2. -/
def processEnsembles (d : Bytes) (n_cells : ℕ) :
    List (ℕ × ℕ) → AdcOut → Except PyErr AdcOut
  | [], out => .ok out
  | ie :: rest, out => do
    let out' ← processEnsemble d n_cells out ie
    processEnsembles d n_cells rest out'

/-- The type-tag list of one ensemble's sub-block offset table, for
stating which block kinds an ensemble carries. -/
def dtIdsAux (d : Bytes) (pos : ℕ) : ℕ → ℕ → Except PyErr (List ℕ)
  | 0, _ => .ok []
  | k + 1, j => do
    let dtOff ← readU16E d (pos + 6 + 2 * j)
    let dtId ← readU16E d (pos + dtOff)
    let rest ← dtIdsAux d pos k (j + 1)
    .ok (dtId :: rest)

/-- All sub-block type tags of the ensemble starting at `pos`. -/
def ensembleDtIds (d : Bytes) (pos : ℕ) : Except PyErr (List ℕ) :=
  dtIdsAux d pos (d.getD (pos + 5) 0) 0

/-- `parse_adc` from the in-memory buffer onward (remus_adcp.py lines
161-292): pass 1, the structural `ValueError` when no fixed leader was
found, array allocation, pass 2. -/
def parse_adc (d : Bytes) : Except PyErr AdcOut := do
  let s ← ensScan d
  match s.2 with
  | none => .error .valueErr
  | some fl =>
    let nEns := s.1.length
    let nCells := fl.n_cells
    let init : AdcOut :=
      ⟨fl, nEns, nCells,
        List.replicate nEns 0, List.replicate nEns 0, List.replicate nEns 0,
        List.replicate nEns 0, List.replicate nEns 0, List.replicate nEns 0,
        List.replicate nEns 0, List.replicate nEns 0,
        List.replicate nEns 0, List.replicate nEns 0, List.replicate nEns 0,
        List.replicate nEns 0, List.replicate nEns 0, List.replicate nEns 0,
        List.replicate nEns (List.replicate nCells (List.replicate 4 (-32768))),
        List.replicate nEns (List.replicate nCells (List.replicate 4 0)),
        List.replicate nEns (List.replicate nCells (List.replicate 4 0)),
        List.replicate nEns (List.replicate nCells (List.replicate 4 0)),
        List.replicate nEns (List.replicate 4 0),
        List.replicate nEns (List.replicate 4 0)⟩
    processEnsembles d nCells s.1.enum init

/-! ## Auxiliary predicates and concrete inputs used by the claims -/

/-- `Except.isOk` as a plain Boolean (no payload inspection). -/
def exOk {ε α : Type} : Except ε α → Bool
  | .ok _ => true
  | .error _ => false

/-- One admissible step of the masked-timestamp sequence: either no
backward jump, or a backward jump past the rollover threshold that one
day's worth of milliseconds repairs. -/
def rolloverStep (a b : ℤ) : Prop :=
  0 ≤ b - a ∨ (b - a < -1000000 ∧ 0 ≤ b - a + 86400000)

instance : ∀ a b, Decidable (rolloverStep a b) := fun a b =>
  inferInstanceAs (Decidable (0 ≤ b - a ∨ (b - a < -1000000 ∧ 0 ≤ b - a + 86400000)))

/-- A Navigation frame whose 10-byte payload is too short for the
declared fields (46 bytes needed). -/
def navShortBuf : Bytes :=
  [0xEB, 0x90, 0, 0, 0x4E, 0x04, 0x0A, 0x00] ++ List.replicate 10 0

/-- A single valid frame with an empty payload (the format's Event
Marker records have empty payloads). -/
def emptyFrameBuf : Bytes := encodeFrames [⟨5, 0, []⟩]

/-- A single valid frame of type 5 with a one-byte payload. -/
def oneFrameBuf : Bytes := encodeFrames [⟨5, 0, [7]⟩]

/-- A 46-byte all-zero Navigation payload. -/
def navZeroPayload : Bytes := List.replicate 46 0

/-- A 59-byte all-zero GPS payload (no printable ASCII content). -/
def gpsZeroPayload : Bytes := List.replicate 59 0

/-- A 55-byte Sidescan payload whose altitude field (offset 8) holds
the float32 bit pattern 0xC2031000 = -32.765625, a valid value 0.002375
away from the -32.768 sentinel. -/
def ssNearPayload : Bytes :=
  List.replicate 8 0 ++ [0x00, 0x10, 0x03, 0xC2] ++ List.replicate 43 0

/-- Expected `decode_sidescan [ssNearPayload]` output: the altitude
entry is masked to missing. -/
def ssNearOut : SidescanOut :=
  ⟨[some 0], [some 0], [none], [some 0], [some 0], [some 0]⟩

/-- A 57-byte Nav/Acoustic payload whose DVL-heading field (offset 8)
holds float32 -1.0 (bit pattern 0xBF800000), the declared sentinel. -/
def naSentinelPayload : Bytes :=
  List.replicate 8 0 ++ [0x00, 0x00, 0x80, 0xBF] ++ List.replicate 45 0

/-- Expected `decode_nav_acoustic [naSentinelPayload]` output. -/
def naSentinelOut : NavAcOut :=
  ⟨[none], [some 0], [none], [none], [some 0], [some 0]⟩

/-- Expected `decode_nav [navZeroPayload]` output. -/
def navZeroOut : NavOut :=
  ⟨[some 0], [some 0], [0], [some 0], [0], [some 0], [some 0], [some 0], [0]⟩

/-- One complete 54-byte PD0 ensemble: header with 2 sub-blocks, a
fixed leader at offset 10 (2 cells, 100 cm), and a velocity block at
offset 36 with all eight beam/cell values equal to 1 mm/s. -/
def adcEns54 : Bytes :=
  [0x7F, 0x7F, 52, 0, 0, 2, 10, 0, 36, 0,
   0, 0, 0, 0, 0, 0, 0, 0, 0, 2,
   0, 0, 100, 0, 0, 0, 0, 0, 0, 0,
   0, 0, 0, 0, 0, 0,
   0, 1,
   1, 0, 1, 0, 1, 0, 1, 0, 1, 0, 1, 0, 1, 0, 1, 0]

/-- `adcEns54` followed by a second ensemble (6-byte header, zero
sub-blocks, so no velocity block) and one trailing pad byte. -/
def adcTwoEns : Bytes := adcEns54 ++ [0x7F, 0x7F, 4, 0, 0, 0] ++ [0]

/-- The fixed leader encoded in `adcEns54`. -/
def adcFL : FixedLeader := ⟨0, 0, 0, 75, 20, 4, false, 2, 0, 100, 0, 0⟩

/-- Expected `parse_adc adcTwoEns` output: ensemble 0 carries the
decoded velocities, ensemble 1 keeps the -32768 pre-fill. -/
def adcTwoOut : AdcOut :=
  ⟨adcFL, 2, 2,
    [0, 0], [0, 0], [0, 0], [0, 0], [0, 0], [0, 0], [0, 0], [0, 0],
    [0, 0], [0, 0], [0, 0], [0, 0], [0, 0], [0, 0],
    [[[1, 1, 1, 1], [1, 1, 1, 1]], [[-32768, -32768, -32768, -32768], [-32768, -32768, -32768, -32768]]],
    [[[0, 0, 0, 0], [0, 0, 0, 0]], [[0, 0, 0, 0], [0, 0, 0, 0]]],
    [[[0, 0, 0, 0], [0, 0, 0, 0]], [[0, 0, 0, 0], [0, 0, 0, 0]]],
    [[[0, 0, 0, 0], [0, 0, 0, 0]], [[0, 0, 0, 0], [0, 0, 0, 0]]],
    [[0, 0, 0, 0], [0, 0, 0, 0]],
    [[0, 0, 0, 0], [0, 0, 0, 0]]⟩

/-- A spurious ensemble marker whose declared size (0xFFFF + 2) cannot
fit in any small buffer. -/
def adcSpur : Bytes := [0x7F, 0x7F, 0xFF, 0xFF, 0, 0, 0]

/-- A spurious oversize marker followed by a complete valid ensemble. -/
def adcSpurThenGood : Bytes := adcSpur ++ adcEns54

/-- A buffer whose single ensemble has an out-of-range sub-block
offset (0xFFFF), so the fixed-leader search raises `struct.error`
rather than the named structural error. -/
def adcOobBuf : Bytes := [0x7F, 0x7F, 3, 0, 0, 1, 0xFF, 0xFF]

/-- The spec's rollover example: a raw counter sequence crossing one
midnight. -/
def rollExample : List ℕ := [86399000, 86399900, 500, 1200]

/-! # Theorems

Helper lemmas are shared; each claim has exactly one named theorem
(plus its witness / counterexample where required). -/

@[simp] theorem ebind_ok {ε α β : Type} (a : α) (f : α → Except ε β) :
    (Except.ok a >>= f) = f a := rfl

@[simp] theorem ebind_error {ε α β : Type} (e : ε) (f : α → Except ε β) :
    ((Except.error e : Except ε α) >>= f) = .error e := rfl

@[simp] theorem emap_ok {ε α β : Type} (a : α) (f : α → β) :
    (Except.ok a : Except ε α).map f = .ok (f a) := rfl

@[simp] theorem emap_error {ε α β : Type} (e : ε) (f : α → β) :
    (Except.error e : Except ε α).map f = .error e := rfl

@[simp] theorem epure_eq_ok {ε α : Type} (a : α) :
    (pure a : Except ε α) = .ok a := rfl

theorem mapME_ok_length {a b : Type} (f : a → Except PyErr b) :
    ∀ l r, mapME f l = .ok r → r.length = l.length := by
  intro l
  induction l with
  | nil => intro r h; simp [mapME] at h; simp [← h]
  | cons x xs ih =>
    intro r h
    simp only [mapME] at h
    cases hx : f x with
    | error e => rw [hx] at h; simp at h
    | ok y =>
      rw [hx] at h
      cases hxs : mapME f xs with
      | error e => rw [hxs] at h; simp at h
      | ok ys =>
        rw [hxs] at h
        simp at h
        subst h
        simp [ih ys hxs]

theorem mapME_ok_get {a b : Type} (f : a → Except PyErr b) :
    ∀ (l : List a) (r : List b) (i : ℕ) (x : a), mapME f l = .ok r → l[i]? = some x →
      ∃ y, r[i]? = some y ∧ f x = .ok y := by
  intro l
  induction l with
  | nil => intro r i x _ hg; simp at hg
  | cons z zs ih =>
    intro r i x h hg
    simp only [mapME] at h
    cases hz : f z with
    | error e => rw [hz] at h; simp at h
    | ok y =>
      rw [hz] at h
      cases hzs : mapME f zs with
      | error e => rw [hzs] at h; simp at h
      | ok ys =>
        rw [hzs] at h
        simp at h
        subst h
        cases i with
        | zero => simp at hg; subst hg; exact ⟨y, by simp, hz⟩
        | succ j => simp at hg ⊢; exact ih ys j x hzs hg

theorem mapME_error_of_mem {a b : Type} (f : a → Except PyErr b) :
    ∀ l x, x ∈ l → (∃ e, f x = .error e) → ∃ e, mapME f l = .error e := by
  intro l
  induction l with
  | nil => intro x hx; simp at hx
  | cons z zs ih =>
    intro x hx ⟨e, he⟩
    simp only [mapME]
    cases hz : f z with
    | error e' => exact ⟨e', rfl⟩
    | ok y =>
      rcases List.mem_cons.mp hx with hxz | hxzs
      · subst hxz; rw [hz] at he; simp at he
      · rcases ih x hxzs ⟨e, he⟩ with ⟨e', he'⟩
        rw [he']
        exact ⟨e', rfl⟩

/-! ## C4: the timestamp normalizer -/

theorem unwrapAux_length (t : List ℤ) : ∀ prev c, (unwrapAux prev c t).length = t.length := by
  induction t with
  | nil => intro prev c; simp [unwrapAux]
  | cons x xs ih =>
    intro prev c
    simp only [unwrapAux]
    split_ifs <;> simp [ih]

theorem unwrapAux_chain (t : List ℤ) : ∀ m c, List.Chain rolloverStep m t →
    List.Chain (· ≤ ·) (m + c) (unwrapAux (m + c) c t) := by
  induction t with
  | nil => intro m c _; simp [unwrapAux]
  | cons x xs ih =>
    intro m c hch
    rcases List.chain_cons.mp hch with ⟨hstep, htail⟩
    simp only [unwrapAux]
    by_cases htrig : x + c - (m + c) < -1000000
    · rw [if_pos htrig]
      refine List.chain_cons.mpr ⟨?_, ?_⟩
      · rcases hstep with h0 | ⟨_, h1⟩
        · omega
        · omega
      · have := ih x (c + 86400000) htail
        have harg : x + (c + 86400000) = x + c + 86400000 := by ring
        rw [harg] at this
        exact this
    · rw [if_neg htrig]
      refine List.chain_cons.mpr ⟨?_, ?_⟩
      · rcases hstep with h0 | ⟨h1, _⟩
        · omega
        · omega
      · exact ih x c htail

/-- C4 (counterexample): the raw sequence `[1000000, 0]` has a small
backward jump (exactly -1,000,000 ms, not beyond the strict rollover
threshold), so `unwrap_timestamps` leaves it uncorrected and the
output decreases from 0 to -5/18 hours: the output is not
non-decreasing for every non-empty uint32 input. -/
theorem C4_counterexample :
    unwrap_timestamps [1000000, 0] = .ok [0, -5 / 18] ∧
    ¬ List.Chain' (· ≤ ·) [(0 : ℚ), -5 / 18] := by
  constructor
  · norm_num [unwrap_timestamps, unwrapAux, maskTs]
  · simp only [List.chain'_cons, List.chain'_singleton, and_true]
    norm_num

/-- C4 (amended): for every non-empty uint32 input the first output
element is exactly zero, and the output is non-decreasing provided
every backward step of the masked sequence exceeds the 1,000,000 ms
threshold and is repaired by one day's 86,400,000 ms (`rolloverStep`);
the original claim fails only for backward jitter at or below the
threshold. -/
theorem C4_amended (raw : List ℕ) (h : raw ≠ [])
    (hsteps : List.Chain' rolloverStep (raw.map maskTs)) :
    ∃ hs, unwrap_timestamps raw = .ok hs ∧ hs.head? = some 0 ∧ List.Chain' (· ≤ ·) hs := by
  cases raw with
  | nil => exact absurd rfl h
  | cons r0 rt =>
    simp only [unwrap_timestamps, List.map_cons]
    refine ⟨_, rfl, ?_, ?_⟩
    · simp
    · have hch : List.Chain rolloverStep (maskTs r0) (rt.map maskTs) := hsteps
      have haux := unwrapAux_chain (rt.map maskTs) (maskTs r0) 0 hch
      rw [add_zero] at haux
      have hus : List.Chain' (· ≤ ·) (maskTs r0 :: unwrapAux (maskTs r0) 0 (rt.map maskTs)) := haux
      change List.Chain' (· ≤ ·)
        (List.map (fun u => ((u - maskTs r0 : ℤ) : ℚ) / 3600000)
          (maskTs r0 :: unwrapAux (maskTs r0) 0 (rt.map maskTs)))
      rw [List.chain'_map]
      refine hus.imp ?_
      intro u v huv
      have : ((u - maskTs r0 : ℤ) : ℚ) ≤ ((v - maskTs r0 : ℤ) : ℚ) := by
        exact_mod_cast sub_le_sub_right huv _
      exact div_le_div_of_nonneg_right this (by norm_num) |>.trans_eq rfl

/-- C4 witness: the spec's midnight-crossing example satisfies the
step hypothesis, and the amended theorem yields a zero first element
and a non-decreasing hours axis. -/
theorem C4_witness :
    ∃ hs, unwrap_timestamps rollExample = .ok hs ∧ hs.head? = some 0 ∧
      List.Chain' (· ≤ ·) hs := by
  refine C4_amended rollExample (by decide) ?_
  simp only [rollExample, List.map_cons, List.map_nil]
  norm_num [List.chain'_cons, rolloverStep, maskTs]

/-! ## C1: undersized payload for a known type -/

theorem decodeNavOne_short (p : Bytes) (h : p.length < 46) :
    decodeNavOne p = .error .structErr := by
  have h46 : ¬ (42 + 4 ≤ p.length) := by omega
  simp only [decodeNavOne, readF64E, readU32E, readF32E, readU16E, h46, if_false]
  split_ifs <;> rfl

theorem decode_nav_error_of_short (ps : List Bytes) (p : Bytes) (hp : p ∈ ps)
    (h : p.length < 46) : ∃ e, decode_nav ps = .error e := by
  rcases mapME_error_of_mem decodeNavOne ps p hp ⟨_, decodeNavOne_short p h⟩ with ⟨e, he⟩
  exact ⟨e, by simp [decode_nav, he]⟩

theorem recLookup_mem (recs : List (ℕ × List Bytes)) (t : ℕ) (ps : List Bytes)
    (h : recLookup recs t = some ps) : (t, ps) ∈ recs := by
  induction recs with
  | nil => simp [recLookup] at h
  | cons r rest ih =>
    rcases r with ⟨t', qs⟩
    simp only [recLookup] at h
    by_cases ht : t' = t
    · rw [if_pos ht] at h
      subst ht
      simp at h
      subst h
      exact List.mem_cons_self _ _
    · rw [if_neg ht] at h
      exact List.mem_cons_of_mem _ (ih h)

theorem parseRlfLoop_error (items : List (ℕ × List Bytes)) (x : ℕ × List Bytes)
    (hx : x ∈ items) (hstep : ∀ acc, ∃ e, parseRlfStep acc x = .error e) :
    ∀ acc, ∃ e, parseRlfLoop items acc = .error e := by
  induction items with
  | nil => simp at hx
  | cons y rest ih =>
    intro acc
    simp only [parseRlfLoop]
    rcases List.mem_cons.mp hx with hxy | hxrest
    · subst hxy
      rcases hstep acc with ⟨e, he⟩
      rw [he]
      exact ⟨e, rfl⟩
    · cases hy : parseRlfStep acc y with
      | error e => exact ⟨e, rfl⟩
      | ok acc' =>
        simp only [ebind_ok]
        exact ih hxrest acc'

/-- C1 (counterexample): a buffer holding one Navigation frame with a
10-byte payload.  The claim says the occurrence's row is filled with
the missing-value marker, a failure count is kept in the summary, and
the parse is not aborted; instead `decode_nav`'s `struct.unpack_from`
raises and `parse_rlf` aborts with that exception, producing no result
at all. -/
theorem C1_counterexample : parse_rlf navShortBuf = .error .structErr := by decide

/-- C1 (amended): a payload too short to hold a declared Navigation
field is not tolerated per occurrence: whenever the raw dictionary
holds a Navigation payload shorter than 46 bytes, `parse_rlf` aborts
with a decode exception; no row of missing-value markers is produced
and no failure count reaches the summary (no summary is returned at
all). -/
theorem C1_amended (d : Bytes) (ps : List Bytes)
    (hnav : recLookup (parse_raw_records d) REC_NAV = some ps)
    (hshort : ∃ p ∈ ps, p.length < 46) :
    ∃ e, parse_rlf d = .error e := by
  rcases hshort with ⟨p, hp, hlen⟩
  have hmem := recLookup_mem _ _ _ hnav
  have hstep : ∀ acc, ∃ e, parseRlfStep acc (REC_NAV, ps) = .error e := by
    intro acc
    rcases decode_nav_error_of_short ps p hp hlen with ⟨e, he⟩
    refine ⟨e, ?_⟩
    simp [parseRlfStep, decoderFor, he]
  rcases parseRlfLoop_error _ _ hmem hstep ([], []) with ⟨e, he⟩
  exact ⟨e, by simp [parse_rlf, he]⟩

/-- C1 witness: the amended theorem applied to the concrete
short-payload buffer. -/
theorem C1_witness : ∃ e, parse_rlf navShortBuf = .error e :=
  C1_amended navShortBuf [List.replicate 10 0] (by decide) ⟨List.replicate 10 0, by decide, by decide⟩

/-! ## C7: structure-of-arrays lengths -/

@[simp] theorem decodeF64bits_zero : decodeF64bits 0 = some 0 := by
  norm_num [decodeF64bits]

@[simp] theorem decodeF32bits_zero : decodeF32bits 0 = some 0 := by
  norm_num [decodeF32bits]

theorem unwrap_ok_length (l : List ℕ) (hs : List ℚ) (h : unwrap_timestamps l = .ok hs) :
    hs.length = l.length := by
  unfold unwrap_timestamps at h
  cases hm : l.map maskTs with
  | nil => rw [hm] at h; simp at h
  | cons m t =>
    rw [hm] at h
    simp only [Except.ok.injEq] at h
    have hlen : l.length = (m :: t).length := by rw [← hm, List.length_map]
    rw [← h]
    simp [unwrapAux_length, hlen]

theorem decode_nav_zero : decode_nav [navZeroPayload] = .ok navZeroOut := by
  have h1 : decodeNavOne navZeroPayload =
      .ok ⟨decodeF64bits 0, decodeF64bits 0, 0, decodeF32bits 0, 0,
        decodeF32bits 0, decodeF32bits 0, decodeF32bits 0⟩ := rfl
  simp only [decode_nav, mapME, h1, ebind_ok, decodeF64bits_zero, decodeF32bits_zero]
  norm_num [unwrap_timestamps, unwrapAux, maskTs, navZeroOut]

theorem decode_gps_zero : decode_gps [gpsZeroPayload] = .ok ⟨[some 0], [some 0], []⟩ := by
  have h1 : readF64E gpsZeroPayload 0 = .ok (decodeF64bits 0) := rfl
  have h2 : readF64E gpsZeroPayload 8 = .ok (decodeF64bits 0) := rfl
  have h3 : gpsText gpsZeroPayload = [] := by decide
  simp [decode_gps, mapME, h1, h2, h3]

/-- C7 (counterexample): `decode_gps` on one all-zero payload returns
the structure `⟨[some 0], [some 0], []⟩` whose `ascii_content` array
has length 0, not the occurrence count 1, refuting the claim that
every array in a returned structure of arrays has length N. -/
theorem C7_counterexample :
    decode_gps [gpsZeroPayload] = .ok ⟨[some 0], [some 0], []⟩ ∧
    (GpsOut.mk [some 0] [some 0] []).ascii_content.length ≠ 1 :=
  ⟨decode_gps_zero, by decide⟩

/-- C7 (amended): every per-occurrence field array of a successful
`decode_nav` (including the derived hours axis) and the `lat`/`lon`
arrays of a successful `decode_gps` have length exactly N; the one
exception is `decode_gps`'s `ascii_content`, which keeps only the
payloads' non-empty printable extracts and can only be shorter
(length at most N). -/
theorem C7_amended :
    (∀ ps out, decode_nav ps = .ok out →
      out.lat.length = ps.length ∧ out.lon.length = ps.length ∧
      out.ts_raw.length = ps.length ∧ out.speed.length = ps.length ∧
      out.alt_max_range.length = ps.length ∧ out.pitch.length = ps.length ∧
      out.depth.length = ps.length ∧ out.undecoded_f42.length = ps.length ∧
      out.t_hrs.length = ps.length) ∧
    (∀ ps out, decode_gps ps = .ok out →
      out.lat.length = ps.length ∧ out.lon.length = ps.length ∧
      out.ascii_content.length ≤ ps.length) := by
  constructor
  · intro ps out h
    simp only [decode_nav] at h
    cases hrows : mapME decodeNavOne ps with
    | error e => rw [hrows] at h; simp at h
    | ok rows =>
      rw [hrows] at h
      simp only [ebind_ok] at h
      cases hth : unwrap_timestamps (rows.map (fun r => r.ts_raw)) with
      | error e => rw [hth] at h; simp at h
      | ok th =>
        rw [hth] at h
        simp only [ebind_ok, Except.ok.injEq] at h
        have hlen := mapME_ok_length decodeNavOne ps rows hrows
        have hthlen := unwrap_ok_length _ _ hth
        rw [← h]
        simp [hlen, hthlen]
  · intro ps out h
    simp only [decode_gps] at h
    cases hrows : mapME (fun p => do
        let lat ← readF64E p 0
        let lon ← readF64E p 8
        (.ok (lat, lon, gpsText p) : Except PyErr (Option ℚ × Option ℚ × Bytes))) ps with
    | error e => rw [hrows] at h; simp at h
    | ok rows =>
      rw [hrows] at h
      simp only [ebind_ok, Except.ok.injEq] at h
      have hlen := mapME_ok_length _ ps rows hrows
      rw [← h]
      refine ⟨by simp [hlen], by simp [hlen], ?_⟩
      simp only []
      calc ((rows.map (fun r => r.2.2)).filter (fun t => t ≠ [])).length
          ≤ (rows.map (fun r => r.2.2)).length := List.length_filter_le _ _
        _ = ps.length := by simp [hlen]

/-- C7 witness: the amended length invariants at a concrete Navigation
payload and a concrete GPS payload. -/
theorem C7_witness :
    (decode_nav [navZeroPayload] = .ok navZeroOut ∧ navZeroOut.t_hrs.length = 1) ∧
    (decode_gps [gpsZeroPayload] = .ok ⟨[some 0], [some 0], []⟩ ∧
      (GpsOut.mk [some 0] [some 0] []).ascii_content.length ≤ 1) :=
  ⟨⟨decode_nav_zero,
    (C7_amended.1 [navZeroPayload] navZeroOut decode_nav_zero).2.2.2.2.2.2.2.2⟩,
   ⟨decode_gps_zero,
    (C7_amended.2 [gpsZeroPayload] ⟨[some 0], [some 0], []⟩ decode_gps_zero).2.2⟩⟩

/-! ## C6: sentinel masking -/

theorem decodeF32bits_near : decodeF32bits 3254980608 = some (-2097 / 64) := by
  norm_num [decodeF32bits]

theorem decodeF32bits_negone : decodeF32bits 3212836864 = some (-1) := by
  norm_num [decodeF32bits]

theorem decodeSidescanOne_altitude (p : Bytes) (row : SidescanRow)
    (h : decodeSidescanOne p = .ok row) :
    row.altitude = decodeF32bits (u32of (p.getD 8 0) (p.getD 9 0) (p.getD 10 0) (p.getD 11 0)) := by
  simp only [decodeSidescanOne] at h
  cases h0 : readF32E p 0 with
  | error e => rw [h0] at h; simp at h
  | ok lat =>
  rw [h0] at h
  cases h4 : readF32E p 4 with
  | error e => rw [h4] at h; simp at h
  | ok lon =>
  rw [h4] at h
  cases h8 : readF32E p 8 with
  | error e => rw [h8] at h; simp at h
  | ok alt =>
  rw [h8] at h
  cases h12 : readF32E p 12 with
  | error e => rw [h12] at h; simp at h
  | ok dep =>
  rw [h12] at h
  cases h32 : readF32E p 32 with
  | error e => rw [h32] at h; simp at h
  | ok tem =>
  rw [h32] at h
  cases h38 : readF32E p 38 with
  | error e => rw [h38] at h; simp at h
  | ok hdg =>
  rw [h38] at h
  simp only [ebind_ok, Except.ok.injEq] at h
  rw [← h]
  simp only [readF32E] at h8
  split_ifs at h8 with hc
  simpa using h8.symm

theorem decodeNavAcousticOne_hdvl (p : Bytes) (row : NavAcRow)
    (h : decodeNavAcousticOne p = .ok row) :
    row.heading_dvl = decodeF32bits (u32of (p.getD 8 0) (p.getD 9 0) (p.getD 10 0) (p.getD 11 0)) := by
  simp only [decodeNavAcousticOne] at h
  cases h8 : readF32E p 8 with
  | error e => rw [h8] at h; simp at h
  | ok hdvl =>
  rw [h8] at h
  cases h12 : readF32E p 12 with
  | error e => rw [h12] at h; simp at h
  | ok ssd =>
  rw [h12] at h
  cases h24 : readF64E p 24 with
  | error e => rw [h24] at h; simp at h
  | ok lat =>
  rw [h24] at h
  cases h32 : readF64E p 32 with
  | error e => rw [h32] at h; simp at h
  | ok lon =>
  rw [h32] at h
  cases h40 : readF32E p 40 with
  | error e => rw [h40] at h; simp at h
  | ok hdg =>
  rw [h40] at h
  cases h44 : readF32E p 44 with
  | error e => rw [h44] at h; simp at h
  | ok ss =>
  rw [h44] at h
  simp only [ebind_ok, Except.ok.injEq] at h
  rw [← h]
  simp only [readF32E] at h8
  split_ifs at h8 with hc
  simpa using h8.symm

theorem decode_sidescan_near : decode_sidescan [ssNearPayload] = .ok ssNearOut := by
  have h1 : decodeSidescanOne ssNearPayload =
      .ok ⟨decodeF32bits 0, decodeF32bits 0, decodeF32bits 3254980608,
        decodeF32bits 0, decodeF32bits 0, decodeF32bits 0⟩ := rfl
  simp only [decode_sidescan, mapME, h1, ebind_ok, decodeF32bits_zero, decodeF32bits_near,
    epure_eq_ok]
  norm_num [maskSidescan, SIDESCAN_SENTINEL, ssNearOut, abs_lt]

theorem decode_nav_acoustic_sentinel :
    decode_nav_acoustic [naSentinelPayload] = .ok naSentinelOut := by
  have h1 : decodeNavAcousticOne naSentinelPayload =
      .ok ⟨decodeF32bits 3212836864, decodeF32bits 0,
        plausibleWindow 15 90 (decodeF64bits 0), plausibleWindow 90 180 (decodeF64bits 0),
        decodeF32bits 0, decodeF32bits 0⟩ := rfl
  simp only [decode_nav_acoustic, mapME, h1, ebind_ok, decodeF32bits_zero,
    decodeF32bits_negone, decodeF64bits_zero, epure_eq_ok]
  norm_num [maskMinusOne, plausibleWindow, naSentinelOut]

/-- C6 (counterexample): the sidescan altitude raw encoding
0xC2031000 = -32.765625 is a valid value distinct from the -32.768
sentinel, yet `decode_sidescan` replaces it by the missing-value
marker, because the implementation masks everything within 0.01 of the
sentinel — so a valid field value can be misclassified as missing. -/
theorem C6_counterexample :
    decode_sidescan [ssNearPayload] = .ok ssNearOut ∧
    ssNearOut.altitude = [none] ∧
    decodeF32bits 3254980608 = some (-2097 / 64) ∧
    (-2097 / 64 : ℚ) ≠ SIDESCAN_SENTINEL := by
  refine ⟨decode_sidescan_near, by simp [ssNearOut], decodeF32bits_near, ?_⟩
  norm_num [SIDESCAN_SENTINEL]

/-- C6 (amended): a finite sidescan altitude value decodes to the
missing marker exactly when it lies within 0.01 of the -32.768
sentinel (so the sentinel itself is masked, but so is every valid
value closer than the tolerance), and a finite Nav/Acoustic DVL
heading decodes to the missing marker exactly when it equals the -1.0
sentinel. -/
theorem C6_amended :
    (∀ ps out (i : ℕ) p v, decode_sidescan ps = .ok out → ps[i]? = some p →
      decodeF32bits (u32of (p.getD 8 0) (p.getD 9 0) (p.getD 10 0) (p.getD 11 0)) = some v →
      (out.altitude[i]? = some none ↔ |v - SIDESCAN_SENTINEL| < 1 / 100)) ∧
    (∀ ps out (i : ℕ) p v, decode_nav_acoustic ps = .ok out → ps[i]? = some p →
      decodeF32bits (u32of (p.getD 8 0) (p.getD 9 0) (p.getD 10 0) (p.getD 11 0)) = some v →
      (out.heading_dvl[i]? = some none ↔ v = -1)) := by
  constructor
  · intro ps out i p v h hp hv
    simp only [decode_sidescan] at h
    cases hrows : mapME decodeSidescanOne ps with
    | error e => rw [hrows] at h; simp at h
    | ok rows =>
      rw [hrows] at h
      simp only [ebind_ok, Except.ok.injEq] at h
      rcases mapME_ok_get decodeSidescanOne ps rows i p hrows hp with ⟨row, hri, hrow⟩
      have halt := decodeSidescanOne_altitude p row hrow
      rw [hv] at halt
      rw [← h]
      simp only [List.getElem?_map, hri, Option.map_some']
      rw [halt]
      by_cases hc : |v - SIDESCAN_SENTINEL| < 1 / 100
      · simp [maskSidescan, hc]
      · simp [maskSidescan, hc]
  · intro ps out i p v h hp hv
    simp only [decode_nav_acoustic] at h
    cases hrows : mapME decodeNavAcousticOne ps with
    | error e => rw [hrows] at h; simp at h
    | ok rows =>
      rw [hrows] at h
      simp only [ebind_ok, Except.ok.injEq] at h
      rcases mapME_ok_get decodeNavAcousticOne ps rows i p hrows hp with ⟨row, hri, hrow⟩
      have hh := decodeNavAcousticOne_hdvl p row hrow
      rw [hv] at hh
      rw [← h]
      simp only [List.getElem?_map, hri, Option.map_some']
      rw [hh]
      by_cases hc : v = -1
      · simp [maskMinusOne, hc]
      · simp [maskMinusOne, hc]

/-- C6 witness: the amended characterization applied to the concrete
near-sentinel sidescan payload and the exact-sentinel Nav/Acoustic
payload. -/
theorem C6_witness :
    (ssNearOut.altitude[0]? = some none ↔
      |(-2097 / 64 : ℚ) - SIDESCAN_SENTINEL| < 1 / 100) ∧
    (naSentinelOut.heading_dvl[0]? = some none ↔ (-1 : ℚ) = -1) := by
  constructor
  · have hu : u32of (ssNearPayload.getD 8 0) (ssNearPayload.getD 9 0)
        (ssNearPayload.getD 10 0) (ssNearPayload.getD 11 0) = 3254980608 := by decide
    exact C6_amended.1 [ssNearPayload] ssNearOut 0 ssNearPayload (-2097 / 64)
      decode_sidescan_near (by decide) (by rw [hu]; exact decodeF32bits_near)
  · have hu : u32of (naSentinelPayload.getD 8 0) (naSentinelPayload.getD 9 0)
        (naSentinelPayload.getD 10 0) (naSentinelPayload.getD 11 0) = 3212836864 := by decide
    exact C6_amended.2 [naSentinelPayload] naSentinelOut 0 naSentinelPayload (-1)
      decode_nav_acoustic_sentinel (by decide) (by rw [hu]; exact decodeF32bits_negone)

/-! ## Frame-scanner lemmas shared by C2, C5 and C10 -/

theorem scanFramesAux_congr (d : Bytes) :
    ∀ n m pos, d.length - pos ≤ n → d.length - pos ≤ m →
      scanFramesAux d n pos = scanFramesAux d m pos := by
  intro n
  induction n with
  | zero =>
    intro m pos hn _
    cases m with
    | zero => rfl
    | succ m =>
      simp only [scanFramesAux]
      rw [if_neg (by omega)]
  | succ n ih =>
    intro m pos hn hm
    cases m with
    | zero =>
      simp only [scanFramesAux]
      rw [if_neg (by omega)]
    | succ m =>
      simp only [scanFramesAux]
      by_cases hc : pos < d.length - 8
      · rw [if_pos hc, if_pos hc]
        by_cases hmk : d.getD pos 0 = 0xEB ∧ d.getD (pos + 1) 0 = 0x90
        · rw [if_pos hmk, if_pos hmk]
          by_cases hend : pos + 8 + u16le d (pos + 6) ≤ d.length
          · rw [if_pos hend, if_pos hend, ih m _ (by omega) (by omega)]
          · rw [if_neg hend, if_neg hend, ih m _ (by omega) (by omega)]
        · rw [if_neg hmk, if_neg hmk, ih m _ (by omega) (by omega)]
      · rw [if_neg hc, if_neg hc]

theorem getD_append_right (a d : Bytes) (i : ℕ) :
    (a ++ d).getD (a.length + i) 0 = d.getD i 0 := by
  simp [List.getD_eq_getElem?_getD, List.getElem?_append_right (Nat.le_add_right a.length i)]

theorem u16le_append_right (a d : Bytes) (i : ℕ) :
    u16le (a ++ d) (a.length + i) = u16le d i := by
  unfold u16le
  rw [getD_append_right]
  rw [show a.length + i + 1 = a.length + (i + 1) by omega, getD_append_right]

theorem drop_append_right (a d : Bytes) (i : ℕ) : (a ++ d).drop (a.length + i) = d.drop i := by
  rw [List.drop_append_eq_append_drop]
  simp

theorem scanFramesAux_shift (a d : Bytes) :
    ∀ n k, scanFramesAux (a ++ d) n (a.length + k) = scanFramesAux d n k := by
  intro n
  induction n with
  | zero => intro k; rfl
  | succ n ih =>
    intro k
    have hlen : (a ++ d).length = a.length + d.length := List.length_append a d
    simp only [scanFramesAux]
    have hcond : (a.length + k < (a ++ d).length - 8) ↔ (k < d.length - 8) := by
      rw [hlen]; omega
    by_cases hc : k < d.length - 8
    · rw [if_pos (hcond.mpr hc), if_pos hc]
      have hm0 : (a ++ d).getD (a.length + k) 0 = d.getD k 0 := getD_append_right a d k
      have hm1 : (a ++ d).getD (a.length + k + 1) 0 = d.getD (k + 1) 0 := by
        rw [show a.length + k + 1 = a.length + (k + 1) by omega, getD_append_right]
      rw [hm0, hm1]
      by_cases hmk : d.getD k 0 = 0xEB ∧ d.getD (k + 1) 0 = 0x90
      · rw [if_pos hmk, if_pos hmk]
        have hu : u16le (a ++ d) (a.length + k + 6) = u16le d (k + 6) := by
          rw [show a.length + k + 6 = a.length + (k + 6) by omega, u16le_append_right]
        have hu4 : u16le (a ++ d) (a.length + k + 4) = u16le d (k + 4) := by
          rw [show a.length + k + 4 = a.length + (k + 4) by omega, u16le_append_right]
        rw [hu, hu4]
        have hend : (a.length + k + 8 + u16le d (k + 6) ≤ (a ++ d).length) ↔
            (k + 8 + u16le d (k + 6) ≤ d.length) := by
          rw [hlen]; omega
        by_cases he : k + 8 + u16le d (k + 6) ≤ d.length
        · rw [if_pos (hend.mpr he), if_pos he]
          have hslice : byteSlice (a ++ d) (a.length + k + 8) (a.length + k + 8 + u16le d (k + 6)) =
              byteSlice d (k + 8) (k + 8 + u16le d (k + 6)) := by
            unfold byteSlice
            rw [show a.length + k + 8 = a.length + (k + 8) by omega, drop_append_right]
            congr 1
            omega
          rw [hslice]
          rw [show a.length + k + 8 + u16le d (k + 6) = a.length + (k + 8 + u16le d (k + 6)) by omega,
            ih]
        · rw [if_neg (fun hx => he (hend.mp hx)), if_neg he]
          rw [show a.length + k + 1 = a.length + (k + 1) by omega, ih]
      · rw [if_neg hmk, if_neg hmk]
        rw [show a.length + k + 1 = a.length + (k + 1) by omega, ih]
    · rw [if_neg (fun hx => hc (hcond.mp hx)), if_neg hc]

theorem encodeFrame_length (f : RawFrame) : (encodeFrame f).length = 8 + f.payload.length := by
  simp [encodeFrame]
  omega

theorem encodeFrames_cons (f : RawFrame) (fs : List RawFrame) :
    encodeFrames (f :: fs) = encodeFrame f ++ encodeFrames fs := by
  simp [encodeFrames]

theorem scanFramesAux_encode :
    ∀ (fs : List RawFrame), (∀ f ∈ fs, frameWF f) →
      (∀ f, fs.getLast? = some f → f.payload ≠ []) →
      scanFramesAux (encodeFrames fs) (encodeFrames fs).length 0 =
        fs.map (fun f => (f.rtype, f.payload)) := by
  intro fs
  induction fs with
  | nil => intro _ _; rfl
  | cons f rest ih =>
    intro hwf hlast
    rcases hwf f (List.mem_cons_self f rest) with ⟨hck, hrt, hpl⟩
    have hElen : (encodeFrame f).length = 8 + f.payload.length := encodeFrame_length f
    have hlenR : 0 < f.payload.length + (encodeFrames rest).length := by
      cases rest with
      | nil =>
        have hne : f.payload ≠ [] := hlast f (by simp)
        have := List.length_pos.mpr hne
        omega
      | cons g gs =>
        have h8 : (encodeFrames (g :: gs)).length = (encodeFrame g).length + (encodeFrames gs).length := by
          rw [encodeFrames_cons, List.length_append]
        have := encodeFrame_length g
        omega
    rw [encodeFrames_cons]
    have hlen : (encodeFrame f ++ encodeFrames rest).length =
        8 + f.payload.length + (encodeFrames rest).length := by
      rw [List.length_append, hElen]
    obtain ⟨k, hk⟩ : ∃ k, (encodeFrame f ++ encodeFrames rest).length = k + 1 :=
      ⟨(encodeFrame f ++ encodeFrames rest).length - 1, by omega⟩
    rw [hk]
    simp only [scanFramesAux]
    rw [if_pos (by omega)]
    have hm0 : (encodeFrame f ++ encodeFrames rest).getD 0 0 = 0xEB := rfl
    have hm1 : (encodeFrame f ++ encodeFrames rest).getD (0 + 1) 0 = 0x90 := rfl
    rw [if_pos ⟨hm0, hm1⟩]
    have hty : u16le (encodeFrame f ++ encodeFrames rest) (0 + 4) =
        f.rtype % 256 + 256 * (f.rtype / 256) := rfl
    have hpln : u16le (encodeFrame f ++ encodeFrames rest) (0 + 6) =
        f.payload.length % 256 + 256 * (f.payload.length / 256) := rfl
    have htyv : u16le (encodeFrame f ++ encodeFrames rest) (0 + 4) = f.rtype := by
      rw [hty]; omega
    have hplv : u16le (encodeFrame f ++ encodeFrames rest) (0 + 6) = f.payload.length := by
      rw [hpln]; omega
    rw [htyv, hplv]
    rw [if_pos (by omega)]
    have hdrop : (encodeFrame f ++ encodeFrames rest).drop (0 + 8) =
        f.payload ++ encodeFrames rest := rfl
    have hslice : byteSlice (encodeFrame f ++ encodeFrames rest) (0 + 8)
        (0 + 8 + f.payload.length) = f.payload := by
      unfold byteSlice
      rw [hdrop]
      rw [show 0 + 8 + f.payload.length - (0 + 8) = f.payload.length by omega]
      exact List.take_left f.payload (encodeFrames rest)
    rw [hslice]
    have hshift : scanFramesAux (encodeFrame f ++ encodeFrames rest) k (0 + 8 + f.payload.length) =
        scanFramesAux (encodeFrames rest) k 0 := by
      rw [show 0 + 8 + f.payload.length = (encodeFrame f).length + 0 by omega]
      exact scanFramesAux_shift (encodeFrame f) (encodeFrames rest) k 0
    rw [hshift]
    have hcongr : scanFramesAux (encodeFrames rest) k 0 =
        scanFramesAux (encodeFrames rest) (encodeFrames rest).length 0 :=
      scanFramesAux_congr (encodeFrames rest) k (encodeFrames rest).length 0 (by omega) (by omega)
    rw [hcongr]
    have hrest := ih (fun g hg => hwf g (List.mem_cons_of_mem f hg))
      (fun g hg => by
        cases rest with
        | nil => simp at hg
        | cons r0 rs =>
          exact hlast g (by rw [List.getLast?_cons_cons]; exact hg))
    rw [hrest]
    simp

theorem scanFrames_encode (fs : List RawFrame) (hwf : ∀ f ∈ fs, frameWF f)
    (hlast : ∀ f, fs.getLast? = some f → f.payload ≠ []) :
    scanFrames (encodeFrames fs) = fs.map (fun f => (f.rtype, f.payload)) :=
  scanFramesAux_encode fs hwf hlast

theorem recLookup_addRecord (recs : List (ℕ × List Bytes)) (t' : ℕ) (p : Bytes) (t : ℕ) :
    recLookup (addRecord recs t' p) t =
      if t' = t then some (((recLookup recs t).getD []) ++ [p]) else recLookup recs t := by
  induction recs with
  | nil =>
    by_cases h : t' = t
    · simp [addRecord, recLookup, h]
    · simp [addRecord, recLookup, h]
  | cons r rest ih =>
    rcases r with ⟨a, qs⟩
    by_cases hat : a = t'
    · subst hat
      by_cases ht : a = t
      · simp [addRecord, recLookup, ht]
      · simp [addRecord, recLookup, ht]
    · by_cases ht : a = t
      · subst ht
        have ht' : ¬ (t' = a) := fun h => hat h.symm
        simp [addRecord, recLookup, hat, ht', ih]
      · simp [addRecord, recLookup, hat, ht, ih]

theorem recLookup_fold (l : List (ℕ × Bytes)) :
    ∀ (acc : List (ℕ × List Bytes)) (t : ℕ),
      recLookup (l.foldl (fun recs f => addRecord recs f.1 f.2) acc) t =
        (match recLookup acc t with
         | some ps => some (ps ++ (l.filter (fun f => f.1 = t)).map (fun f => f.2))
         | none =>
           if (l.filter (fun f => f.1 = t)).map (fun f => f.2) = [] then none
           else some ((l.filter (fun f => f.1 = t)).map (fun f => f.2))) := by
  induction l with
  | nil =>
    intro acc t
    simp only [List.foldl_nil, List.filter_nil, List.map_nil]
    cases recLookup acc t <;> simp
  | cons f rest ih =>
    intro acc t
    simp only [List.foldl_cons]
    rw [ih]
    rw [recLookup_addRecord]
    by_cases hf : f.1 = t
    · rw [if_pos hf]
      have hfil : (f :: rest).filter (fun g => g.1 = t) = f :: rest.filter (fun g => g.1 = t) := by
        simp [List.filter_cons, hf]
      rw [hfil]
      cases hacc : recLookup acc t with
      | some ps => simp
      | none => simp
    · rw [if_neg hf]
      have hfil : (f :: rest).filter (fun g => g.1 = t) = rest.filter (fun g => g.1 = t) := by
        simp [List.filter_cons, hf]
      rw [hfil]

theorem parse_raw_records_lookup (d : Bytes) (t : ℕ) :
    recLookup (parse_raw_records d) t =
      (if ((scanFrames d).filter (fun f => f.1 = t)).map (fun f => f.2) = [] then none
       else some (((scanFrames d).filter (fun f => f.1 = t)).map (fun f => f.2))) := by
  unfold parse_raw_records
  rw [recLookup_fold]
  simp [recLookup]

theorem recCount_parse (d : Bytes) (t : ℕ) :
    recCount (parse_raw_records d) t = ((scanFrames d).filter (fun f => f.1 = t)).length := by
  unfold recCount
  rw [parse_raw_records_lookup]
  by_cases h : ((scanFrames d).filter (fun f => f.1 = t)).map (fun f => f.2) = [] 
  · rw [if_pos h]
    rw [List.map_eq_nil_iff] at h
    rw [h]
    simp
  · rw [if_neg h]
    simp

/-- C2 (counterexample): one valid frame whose payload is empty (the
format's Event Marker records are exactly such frames).  The scan loop
stops `HEADER_SIZE` bytes before the end of the buffer, so a trailing
zero-payload frame is never examined: the scanner returns 0 frames,
not N = 1. -/
theorem C2_counterexample :
    scanFrames (encodeFrames [⟨5, 0, []⟩]) = [] ∧
    parse_raw_records (encodeFrames [⟨5, 0, []⟩]) = [] := by decide

/-- C2 (amended): for every concatenation of valid frames with no
inserted garbage, provided the final frame's payload is non-empty,
`parse_raw_records` recovers exactly the N frames in original order
with their exact payload bytes, grouped by record type: the scan
emits the frame sequence itself, and each type's stored payload list
is the spec-side grouping of the input frames.  (A trailing
zero-payload frame — and only the trailing one — is dropped, which is
the single correction to the claim.) -/
theorem C2_amended (fs : List RawFrame) (hwf : ∀ f ∈ fs, frameWF f)
    (hlast : ∀ f, fs.getLast? = some f → f.payload ≠ []) :
    scanFrames (encodeFrames fs) = fs.map (fun f => (f.rtype, f.payload)) ∧
    ∀ t, recLookup (parse_raw_records (encodeFrames fs)) t =
      (if groupByTypeSpec fs t = [] then none else some (groupByTypeSpec fs t)) := by
  have hscan := scanFrames_encode fs hwf hlast
  refine ⟨hscan, fun t => ?_⟩
  rw [parse_raw_records_lookup, hscan]
  have hgrp : ((fs.map (fun f => (f.rtype, f.payload))).filter (fun f => f.1 = t)).map
      (fun f => f.2) = groupByTypeSpec fs t := by
    rw [List.filter_map]
    rw [List.map_map]
    unfold groupByTypeSpec
    congr 1
  rw [hgrp]

/-- C2 witness: the amended round-trip at a concrete single-frame
buffer with a non-empty payload. -/
theorem C2_witness :
    scanFrames (encodeFrames [⟨5, 0, [7]⟩]) = [(5, [7])] ∧
    recLookup (parse_raw_records (encodeFrames [⟨5, 0, [7]⟩])) 5 = some [[7]] := by
  have h := C2_amended [⟨5, 0, [7]⟩] (by decide) (by decide)
  refine ⟨h.1, ?_⟩
  rw [h.2 5]
  decide

/-! ## C10 and C5: the offset-collecting scan against the frame scanner -/

theorem stampScanAux_counts (d : Bytes) (rT tT : ℕ) (hne : rT ≠ tT) :
    ∀ n pos,
      (stampScanAux d rT tT n pos).1.length =
        ((scanFramesAux d n pos).filter (fun f => f.1 = rT)).length ∧
      (stampScanAux d rT tT n pos).2.length =
        ((scanFramesAux d n pos).filter (fun f => f.1 = tT)).length := by
  intro n
  induction n with
  | zero => intro pos; simp [stampScanAux, scanFramesAux]
  | succ n ih =>
    intro pos
    simp only [stampScanAux, scanFramesAux]
    by_cases hc : pos < d.length - 8
    · rw [if_pos hc, if_pos hc]
      by_cases hmk : d.getD pos 0 = 0xEB ∧ d.getD (pos + 1) 0 = 0x90
      · rw [if_pos hmk, if_pos hmk]
        by_cases hend : pos + 8 + u16le d (pos + 6) ≤ d.length
        · rw [if_pos hend, if_pos hend]
          rcases ih (pos + 8 + u16le d (pos + 6)) with ⟨ih1, ih2⟩
          by_cases hr : u16le d (pos + 4) = rT
          · have hnt : ¬ (u16le d (pos + 4) = tT) := by rw [hr]; exact hne
            simp [hr, hnt, hne, hne.symm, List.filter_cons, ih1, ih2]
          · by_cases ht : u16le d (pos + 4) = tT
            · simp [hr, ht, hne, hne.symm, List.filter_cons, ih1, ih2]
            · simp [hr, ht, hne, hne.symm, List.filter_cons, ih1, ih2]
        · rw [if_neg hend, if_neg hend]
          exact ih (pos + 1)
      · rw [if_neg hmk, if_neg hmk]
        exact ih (pos + 1)
    · rw [if_neg hc, if_neg hc]
      simp

theorem stampScanAux_target_le (d : Bytes) (rT tT : ℕ) :
    ∀ n pos, (stampScanAux d rT tT n pos).2.length ≤
      ((scanFramesAux d n pos).filter (fun f => f.1 = tT)).length := by
  intro n
  induction n with
  | zero => intro pos; simp [stampScanAux, scanFramesAux]
  | succ n ih =>
    intro pos
    simp only [stampScanAux, scanFramesAux]
    by_cases hc : pos < d.length - 8
    · rw [if_pos hc, if_pos hc]
      by_cases hmk : d.getD pos 0 = 0xEB ∧ d.getD (pos + 1) 0 = 0x90
      · rw [if_pos hmk, if_pos hmk]
        by_cases hend : pos + 8 + u16le d (pos + 6) ≤ d.length
        · rw [if_pos hend, if_pos hend]
          have ihe := ih (pos + 8 + u16le d (pos + 6))
          by_cases hr : u16le d (pos + 4) = rT
          · simp only [if_pos hr]
            by_cases ht : u16le d (pos + 4) = tT
            · simp [List.filter_cons, ht]
              omega
            · simp [List.filter_cons, ht]
              exact ihe
          · simp only [if_neg hr]
            by_cases ht : u16le d (pos + 4) = tT
            · simp [List.filter_cons, ht]
              exact ihe
            · simp [List.filter_cons, ht]
              exact ihe
        · rw [if_neg hend, if_neg hend]
          exact ih (pos + 1)
      · rw [if_neg hmk, if_neg hmk]
        exact ih (pos + 1)
    · rw [if_neg hc, if_neg hc]
      simp

/-- C10 (counterexample): with the target and reference set to the
same type code (which the claim's quantification allows), the `elif`
never fires: on a buffer with one type-5 frame the scan collects 0
offsets for the target type while `parse_raw_records` stores 1
payload for type 5. -/
theorem C10_counterexample :
    (stampScan oneFrameBuf 5 5).2.length = 0 ∧
    recCount (parse_raw_records oneFrameBuf) 5 = 1 := by decide

/-- C10 (amended): for distinct target and reference type codes, the
offset-collecting scan of `_stamp_by_position` agrees with
`parse_raw_records` on every buffer: the number of reference offsets
equals the length of the reference type's payload list and the number
of target offsets equals the length of the target type's payload
list. -/
theorem C10_amended (d : Bytes) (rT tT : ℕ) (hne : rT ≠ tT) :
    (stampScan d rT tT).1.length = recCount (parse_raw_records d) rT ∧
    (stampScan d rT tT).2.length = recCount (parse_raw_records d) tT := by
  have h := stampScanAux_counts d rT tT hne d.length 0
  rw [recCount_parse, recCount_parse]
  exact h

/-- C10 witness: the amended equivalence at a concrete buffer with one
type-5 frame, target 5 and reference 6. -/
theorem C10_witness :
    (stampScan oneFrameBuf 6 5).1.length = recCount (parse_raw_records oneFrameBuf) 6 ∧
    (stampScan oneFrameBuf 6 5).2.length = recCount (parse_raw_records oneFrameBuf) 5 :=
  C10_amended oneFrameBuf 6 5 (by decide)

/-- C5 (counterexample): a buffer holding one frame of the target type
and none of the reference type.  The claim says the result is empty /
zero-length; the code returns `np.zeros(len(target_pos))`, a
zero-filled array of length 1. -/
theorem C5_counterexample :
    stamp_by_position oneFrameBuf 5 6 [] = .ok (List.replicate 1 0) ∧
    (List.replicate 1 (0 : ℚ)).length ≠ 0 := by
  constructor
  · decide
  · decide

/-- C5 (amended): when the target type is absent the result is the
empty array; when the target type occurs but the reference type is
absent, the result is a zero-filled (not zero-length) array with one
entry per target occurrence.  Neither case raises. -/
theorem C5_amended (d : Bytes) (tT rT : ℕ) (ts : List ℚ) :
    (recLookup (parse_raw_records d) tT = none →
      stamp_by_position d tT rT ts = .ok []) ∧
    (∀ ps, recLookup (parse_raw_records d) rT = none →
      recLookup (parse_raw_records d) tT = some ps →
      stamp_by_position d tT rT ts = .ok (List.replicate ps.length 0)) := by
  constructor
  · intro hnone
    have hcnt : recCount (parse_raw_records d) tT = 0 := by
      unfold recCount
      rw [hnone]
      simp
    rw [recCount_parse] at hcnt
    have hle := stampScanAux_target_le d rT tT d.length 0
    have h2 : (stampScan d rT tT).2.length = 0 := by
      unfold stampScan
      unfold scanFrames at hcnt
      omega
    have h2nil : (stampScan d rT tT).2 = [] := List.length_eq_zero.mp h2
    simp only [stamp_by_position]
    rw [if_pos (Or.inr h2nil), h2nil]
    simp
  · intro ps hrnone htsome
    have hne : rT ≠ tT := by
      intro h
      rw [h, htsome] at hrnone
      exact Option.noConfusion hrnone
    have hcounts := stampScanAux_counts d rT tT hne d.length 0
    have hr0 : recCount (parse_raw_records d) rT = 0 := by
      unfold recCount
      rw [hrnone]
      simp
    have htn : recCount (parse_raw_records d) tT = ps.length := by
      unfold recCount
      rw [htsome]
      simp
    rw [recCount_parse] at hr0 htn
    have h1 : (stampScan d rT tT).1.length = 0 := by
      unfold stampScan
      unfold scanFrames at hr0
      omega
    have h1nil : (stampScan d rT tT).1 = [] := List.length_eq_zero.mp h1
    have h2len : (stampScan d rT tT).2.length = ps.length := by
      unfold stampScan
      unfold scanFrames at htn
      omega
    simp only [stamp_by_position]
    rw [if_pos (Or.inl h1nil), h2len]

/-- C5 witness: the amended behavior at a concrete buffer — absent
target gives the empty array; present target with absent reference
gives a zero-filled array of the target's occurrence count. -/
theorem C5_witness :
    stamp_by_position oneFrameBuf 9 5 [] = .ok [] ∧
    stamp_by_position oneFrameBuf 5 6 [] = .ok (List.replicate 1 0) :=
  ⟨(C5_amended oneFrameBuf 9 5 []).1 (by decide),
   (C5_amended oneFrameBuf 5 6 []).2 [[7]] (by decide) (by decide)⟩

/-! ## C3: resynchronization after a spurious marker match -/

/-- C3 (counterexample): an oversize spurious ensemble marker followed
by a complete valid ensemble.  The event-record scanner's policy
(advance one byte) is claimed for both scanners, but pass 1 of
`parse_adc` executes `break`: the valid ensemble after the spurious
match is never emitted and the whole parse fails with the structural
error, even though the same ensemble parses fine on its own. -/
theorem C3_counterexample :
    parse_adc adcSpurThenGood = .error .valueErr ∧
    exOk (parse_adc adcEns54) = true := by
  constructor
  · decide
  · decide

/-- C3 (amended): on a marker match whose computed frame end exceeds
the buffer, the event-record scanner emits nothing and continues from
the next byte (so later frames are still found), while the ensemble
scanner stops scanning entirely at such a match (no later ensemble is
emitted): the one-byte-resynchronization half of the claim holds only
for the event-record scanner. -/
theorem C3_amended :
    (∀ (d : Bytes) (n pos : ℕ), pos < d.length - 8 →
      d.getD pos 0 = 0xEB → d.getD (pos + 1) 0 = 0x90 →
      ¬ (pos + 8 + u16le d (pos + 6) ≤ d.length) →
      scanFramesAux d (n + 1) pos = scanFramesAux d n (pos + 1)) ∧
    (∀ (d : Bytes) (n pos : ℕ) (fl : Option FixedLeader), pos + 6 < d.length →
      d.getD pos 0 = 0x7F → d.getD (pos + 1) 0 = 0x7F →
      pos + (u16le d (pos + 2) + 2) > d.length →
      ensScanAux d (n + 1) pos fl = .ok ([], fl)) := by
  constructor
  · intro d n pos hc hm0 hm1 hend
    simp only [scanFramesAux]
    rw [if_pos hc, if_pos ⟨hm0, hm1⟩, if_neg hend]
  · intro d n pos fl hc hm0 hm1 hover
    simp only [ensScanAux]
    rw [if_pos hc, if_pos ⟨hm0, hm1⟩, if_pos hover]

/-- C3 witness: the amended behavior at concrete spurious matches —
the event scanner resynchronizes one byte later; the ensemble scanner
returns the ensembles found so far and stops. -/
theorem C3_witness :
    scanFramesAux ([0xEB, 0x90, 0, 0, 5, 0, 0xFF, 0xFF] ++ List.replicate 9 0) 17 0 =
      scanFramesAux ([0xEB, 0x90, 0, 0, 5, 0, 0xFF, 0xFF] ++ List.replicate 9 0) 16 1 ∧
    ensScanAux adcSpurThenGood 61 0 none = .ok ([], none) :=
  ⟨C3_amended.1 ([0xEB, 0x90, 0, 0, 5, 0, 0xFF, 0xFF] ++ List.replicate 9 0) 16 0
      (by decide) (by decide) (by decide) (by decide),
   C3_amended.2 adcSpurThenGood 60 0 none (by decide) (by decide) (by decide) (by decide)⟩

/-! ## C9: the structural error of the ensemble parser -/

theorem mapME_error_src {a b : Type} (f : a → Except PyErr b) :
    ∀ l e, mapME f l = .error e → ∃ x ∈ l, f x = .error e := by
  intro l
  induction l with
  | nil => intro e h; simp [mapME] at h
  | cons z zs ih =>
    intro e h
    simp only [mapME] at h
    cases hz : f z with
    | error e' =>
      rw [hz] at h
      simp only [ebind_error, Except.error.injEq] at h
      subst h
      exact ⟨z, List.mem_cons_self z zs, hz⟩
    | ok y =>
      rw [hz] at h
      simp only [ebind_ok] at h
      cases hzs : mapME f zs with
      | error e' =>
        rw [hzs] at h
        simp only [ebind_error, Except.error.injEq] at h
        subst h
        rcases ih e' hzs with ⟨x, hx, hfx⟩
        exact ⟨x, List.mem_cons_of_mem z hx, hfx⟩
      | ok ys => rw [hzs] at h; simp at h

theorem bind_no_valueErr {α β : Type} (x : Except PyErr α) (g : α → Except PyErr β)
    (hx : ∀ e, x = .error e → e ≠ .valueErr)
    (hg : ∀ a e, g a = .error e → e ≠ .valueErr) :
    ∀ e, (x >>= g) = .error e → e ≠ .valueErr := by
  intro e h
  cases x with
  | error e' =>
    simp only [ebind_error, Except.error.injEq] at h
    subst h
    exact hx e' rfl
  | ok a =>
    simp only [ebind_ok] at h
    exact hg a e h

theorem ok_no_valueErr {α : Type} (v : α) :
    ∀ e, (Except.ok v : Except PyErr α) = .error e → e ≠ .valueErr := by
  intro e h
  simp at h

theorem readU8E_no_valueErr (d : Bytes) (i : ℕ) :
    ∀ e, readU8E d i = .error e → e ≠ .valueErr := by
  intro e h
  unfold readU8E at h
  split_ifs at h
  simp at h
  rw [← h]
  simp

theorem readU16E_no_valueErr (d : Bytes) (i : ℕ) :
    ∀ e, readU16E d i = .error e → e ≠ .valueErr := by
  intro e h
  unfold readU16E at h
  split_ifs at h
  simp at h
  rw [← h]
  simp

theorem readI16E_no_valueErr (d : Bytes) (i : ℕ) :
    ∀ e, readI16E d i = .error e → e ≠ .valueErr := by
  intro e h
  unfold readI16E at h
  split_ifs at h
  simp at h
  rw [← h]
  simp

theorem mapME_no_valueErr {a b : Type} (f : a → Except PyErr b)
    (hf : ∀ x e, f x = .error e → e ≠ .valueErr) :
    ∀ l e, mapME f l = .error e → e ≠ .valueErr := by
  intro l e h
  rcases mapME_error_src f l e h with ⟨x, _, hfx⟩
  exact hf x e hfx

theorem parse_variable_leader_no_valueErr (d : Bytes) (o : ℕ) :
    ∀ e, parse_variable_leader d o = .error e → e ≠ .valueErr := by
  unfold parse_variable_leader
  refine bind_no_valueErr _ _ (readU16E_no_valueErr d _) fun _ => ?_
  refine bind_no_valueErr _ _ (readU8E_no_valueErr d _) fun _ => ?_
  refine bind_no_valueErr _ _ (readU8E_no_valueErr d _) fun _ => ?_
  refine bind_no_valueErr _ _ (readU8E_no_valueErr d _) fun _ => ?_
  refine bind_no_valueErr _ _ (readU8E_no_valueErr d _) fun _ => ?_
  refine bind_no_valueErr _ _ (readU8E_no_valueErr d _) fun _ => ?_
  refine bind_no_valueErr _ _ (readU8E_no_valueErr d _) fun _ => ?_
  refine bind_no_valueErr _ _ (readU8E_no_valueErr d _) fun _ => ?_
  refine bind_no_valueErr _ _ (readU8E_no_valueErr d _) fun _ => ?_
  refine bind_no_valueErr _ _ (readU16E_no_valueErr d _) fun _ => ?_
  refine bind_no_valueErr _ _ (readU16E_no_valueErr d _) fun _ => ?_
  refine bind_no_valueErr _ _ (readI16E_no_valueErr d _) fun _ => ?_
  refine bind_no_valueErr _ _ (readI16E_no_valueErr d _) fun _ => ?_
  refine bind_no_valueErr _ _ (readU16E_no_valueErr d _) fun _ => ?_
  refine bind_no_valueErr _ _ (readI16E_no_valueErr d _) fun _ => ?_
  exact ok_no_valueErr _

theorem parse_velocity_no_valueErr (d : Bytes) (o n : ℕ) :
    ∀ e, parse_velocity d o n = .error e → e ≠ .valueErr := by
  unfold parse_velocity
  exact mapME_no_valueErr _
    (fun c => mapME_no_valueErr _ (fun b => readI16E_no_valueErr d _) (List.range 4))
    (List.range n)

theorem parse_echo_intensity_no_valueErr (d : Bytes) (o n : ℕ) :
    ∀ e, parse_echo_intensity d o n = .error e → e ≠ .valueErr := by
  unfold parse_echo_intensity
  exact mapME_no_valueErr _
    (fun c => mapME_no_valueErr _ (fun b => readU8E_no_valueErr d _) (List.range 4))
    (List.range n)

theorem parse_correlation_no_valueErr (d : Bytes) (o n : ℕ) :
    ∀ e, parse_correlation d o n = .error e → e ≠ .valueErr := by
  unfold parse_correlation
  exact mapME_no_valueErr _
    (fun c => mapME_no_valueErr _ (fun b => readU8E_no_valueErr d _) (List.range 4))
    (List.range n)

theorem parse_percent_good_no_valueErr (d : Bytes) (o n : ℕ) :
    ∀ e, parse_percent_good d o n = .error e → e ≠ .valueErr := by
  unfold parse_percent_good
  exact mapME_no_valueErr _
    (fun c => mapME_no_valueErr _ (fun b => readU8E_no_valueErr d _) (List.range 4))
    (List.range n)

theorem parse_bottom_track_no_valueErr (d : Bytes) (o : ℕ) :
    ∀ e, parse_bottom_track d o = .error e → e ≠ .valueErr := by
  unfold parse_bottom_track
  refine bind_no_valueErr _ _ (readU16E_no_valueErr d _) fun _ => ?_
  refine bind_no_valueErr _ _
    (mapME_no_valueErr _ (fun b => readU16E_no_valueErr d _) (List.range 4)) fun _ => ?_
  refine bind_no_valueErr _ _
    (mapME_no_valueErr _ (fun b => readI16E_no_valueErr d _) (List.range 4)) fun _ => ?_
  exact ok_no_valueErr _

theorem dispatchBlock_no_valueErr (d : Bytes) (nc i off id : ℕ) (out : AdcOut) :
    ∀ e, dispatchBlock d nc i off id out = .error e → e ≠ .valueErr := by
  unfold dispatchBlock
  split_ifs
  · exact bind_no_valueErr _ _ (parse_variable_leader_no_valueErr d _)
      (fun _ e h => by simp at h)
  · exact bind_no_valueErr _ _ (parse_velocity_no_valueErr d _ _)
      (fun _ e h => by simp at h)
  · exact bind_no_valueErr _ _ (parse_echo_intensity_no_valueErr d _ _)
      (fun _ e h => by simp at h)
  · exact bind_no_valueErr _ _ (parse_correlation_no_valueErr d _ _)
      (fun _ e h => by simp at h)
  · exact bind_no_valueErr _ _ (parse_percent_good_no_valueErr d _ _)
      (fun _ e h => by simp at h)
  · exact bind_no_valueErr _ _ (parse_bottom_track_no_valueErr d _)
      (fun _ e h => by simp at h)
  · intro e h
    simp at h

theorem processSubblocks_no_valueErr (d : Bytes) (nc i ensPos : ℕ) :
    ∀ k j out e, processSubblocks d nc i ensPos k j out = .error e → e ≠ .valueErr := by
  intro k
  induction k with
  | zero => intro j out e h; simp [processSubblocks] at h
  | succ k ih =>
    intro j out
    show ∀ e, processSubblocks d nc i ensPos (k + 1) j out = Except.error e → e ≠ PyErr.valueErr
    simp only [processSubblocks]
    exact bind_no_valueErr _ _ (readU16E_no_valueErr d _) fun dtOff =>
      bind_no_valueErr _ _ (readU16E_no_valueErr d _) fun dtId =>
        bind_no_valueErr _ _ (dispatchBlock_no_valueErr d nc i _ dtId out)
          fun out' e' h' => ih (j + 1) out' e' h'

theorem processEnsembles_no_valueErr (d : Bytes) (nc : ℕ) :
    ∀ l out e, processEnsembles d nc l out = .error e → e ≠ .valueErr := by
  intro l
  induction l with
  | nil => intro out e h; simp [processEnsembles] at h
  | cons ie rest ih =>
    intro out
    show ∀ e, processEnsembles d nc (ie :: rest) out = Except.error e → e ≠ PyErr.valueErr
    simp only [processEnsembles, processEnsemble]
    exact bind_no_valueErr _ _ (processSubblocks_no_valueErr d nc ie.1 ie.2 _ 0 out)
      fun out' e' h' => ih out' e' h'

/-- C9 (counterexample): a buffer whose single ensemble has an
out-of-range sub-block offset.  No configuration block is found in any
ensemble (the scan itself aborts with `struct.error` while searching
for one), yet the parser does not raise the named structural
`ValueError`; it raises `struct.error`, refuting the claimed
equivalence as stated. -/
theorem C9_counterexample :
    parse_adc adcOobBuf = .error .structErr ∧
    ensScan adcOobBuf = .error .structErr ∧
    PyErr.structErr ≠ PyErr.valueErr := by
  refine ⟨by decide, by decide, by decide⟩

/-- C9 (amended): when the boundary scan completes, the parser raises
the named structural error exactly when the scan found no
configuration block in any ensemble; in particular, when at least one
ensemble contains a configuration block the named error is never
raised.  (When the scan itself aborts on a malformed offset table, the
parse instead fails with that unpack error.) -/
theorem C9_amended (d : Bytes) (ens : List ℕ) (flOpt : Option FixedLeader)
    (hscan : ensScan d = .ok (ens, flOpt)) :
    parse_adc d = .error .valueErr ↔ flOpt = none := by
  unfold parse_adc
  rw [hscan]
  simp only [ebind_ok]
  cases flOpt with
  | none => simp
  | some fl =>
    simp only []
    constructor
    · intro h
      exact absurd rfl (processEnsembles_no_valueErr d fl.n_cells ens.enum _ _ h)
    · intro h
      exact Option.noConfusion h

/-- C9 witness: the amended equivalence at a buffer whose first
ensemble carries a configuration block (no structural error) and at a
buffer with no complete ensemble at all (structural error raised). -/
theorem C9_witness :
    (parse_adc adcTwoEns = .error .valueErr ↔ (some adcFL = none)) ∧
    (parse_adc adcSpur = .error .valueErr ↔ ((none : Option FixedLeader) = none)) :=
  ⟨C9_amended adcTwoEns [0, 54] (some adcFL) (by decide),
   C9_amended adcSpur [] none (by decide)⟩

/-! ## C8: velocity array shape and missing sub-blocks -/

theorem mapME_ok_forall {a b : Type} (f : a → Except PyErr b) :
    ∀ l r, mapME f l = .ok r → ∀ y ∈ r, ∃ x ∈ l, f x = .ok y := by
  intro l
  induction l with
  | nil =>
    intro r h y hy
    simp [mapME] at h
    subst h
    simp at hy
  | cons z zs ih =>
    intro r h y hy
    simp only [mapME] at h
    cases hz : f z with
    | error e => rw [hz] at h; simp at h
    | ok w =>
      rw [hz] at h
      cases hzs : mapME f zs with
      | error e => rw [hzs] at h; simp at h
      | ok ws =>
        rw [hzs] at h
        simp only [ebind_ok, epure_eq_ok, Except.ok.injEq] at h
        rw [← h] at hy
        rcases List.mem_cons.mp hy with hyw | hyws
        · exact ⟨z, List.mem_cons_self z zs, by rw [hz, hyw]⟩
        · rcases ih ws hzs y hyws with ⟨x, hx, hfx⟩
          exact ⟨x, List.mem_cons_of_mem z hx, hfx⟩

theorem parse_velocity_shape (d : Bytes) (o n : ℕ) (v : List (List ℤ))
    (h : parse_velocity d o n = .ok v) : v.length = n ∧ ∀ r ∈ v, r.length = 4 := by
  constructor
  · have := mapME_ok_length _ _ _ h
    simpa using this
  · intro r hr
    rcases mapME_ok_forall _ _ _ h r hr with ⟨c, _, hc⟩
    have := mapME_ok_length _ _ _ hc
    simpa using this

theorem dispatchBlock_velocity (d : Bytes) (nc i off id : ℕ) (out out' : AdcOut)
    (h : dispatchBlock d nc i off id out = .ok out') :
    out'.n_ensembles = out.n_ensembles ∧ out'.n_cells = out.n_cells ∧
    out'.velocity.length = out.velocity.length ∧
    (∀ m, m ≠ i → out'.velocity[m]? = out.velocity[m]?) ∧
    (∀ r ∈ out'.velocity, r ∈ out.velocity ∨ (r.length = nc ∧ ∀ c ∈ r, c.length = 4)) := by
  unfold dispatchBlock at h
  split_ifs at h
  · cases hvl : parse_variable_leader d off with
    | error e => rw [hvl] at h; simp at h
    | ok vl =>
      rw [hvl] at h
      simp only [ebind_ok, Except.ok.injEq] at h
      rw [← h]
      exact ⟨rfl, rfl, rfl, fun m _ => rfl, fun r hr => Or.inl hr⟩
  · cases hv : parse_velocity d off nc with
    | error e => rw [hv] at h; simp at h
    | ok v =>
      rw [hv] at h
      simp only [ebind_ok, Except.ok.injEq] at h
      rcases parse_velocity_shape d off nc v hv with ⟨hvl, hvr⟩
      rw [← h]
      refine ⟨rfl, rfl, List.length_set _ _ _,
        fun m hm => List.getElem?_set_ne (Ne.symm hm), fun r hr => ?_⟩
      rcases List.mem_or_eq_of_mem_set hr with hro | hrv
      · exact Or.inl hro
      · subst hrv
        exact Or.inr ⟨hvl, hvr⟩
  · cases he : parse_echo_intensity d off nc with
    | error e => rw [he] at h; simp at h
    | ok v =>
      rw [he] at h
      simp only [ebind_ok, Except.ok.injEq] at h
      rw [← h]
      exact ⟨rfl, rfl, rfl, fun m _ => rfl, fun r hr => Or.inl hr⟩
  · cases hc : parse_correlation d off nc with
    | error e => rw [hc] at h; simp at h
    | ok v =>
      rw [hc] at h
      simp only [ebind_ok, Except.ok.injEq] at h
      rw [← h]
      exact ⟨rfl, rfl, rfl, fun m _ => rfl, fun r hr => Or.inl hr⟩
  · cases hp : parse_percent_good d off nc with
    | error e => rw [hp] at h; simp at h
    | ok v =>
      rw [hp] at h
      simp only [ebind_ok, Except.ok.injEq] at h
      rw [← h]
      exact ⟨rfl, rfl, rfl, fun m _ => rfl, fun r hr => Or.inl hr⟩
  · cases hb : parse_bottom_track d off with
    | error e => rw [hb] at h; simp at h
    | ok v =>
      rw [hb] at h
      simp only [ebind_ok, Except.ok.injEq] at h
      rw [← h]
      exact ⟨rfl, rfl, rfl, fun m _ => rfl, fun r hr => Or.inl hr⟩
  · simp only [Except.ok.injEq] at h
    rw [← h]
    exact ⟨rfl, rfl, rfl, fun m _ => rfl, fun r hr => Or.inl hr⟩

theorem dispatchBlock_velocity_const (d : Bytes) (nc i off id : ℕ) (out out' : AdcOut)
    (hid : id ≠ PD0_VELOCITY) (h : dispatchBlock d nc i off id out = .ok out') :
    out'.velocity = out.velocity := by
  unfold dispatchBlock at h
  split_ifs at h
  · cases hvl : parse_variable_leader d off with
    | error e => rw [hvl] at h; simp at h
    | ok vl =>
      rw [hvl] at h
      simp only [ebind_ok, Except.ok.injEq] at h
      rw [← h]
  · cases he : parse_echo_intensity d off nc with
    | error e => rw [he] at h; simp at h
    | ok v =>
      rw [he] at h
      simp only [ebind_ok, Except.ok.injEq] at h
      rw [← h]
  · cases hc : parse_correlation d off nc with
    | error e => rw [hc] at h; simp at h
    | ok v =>
      rw [hc] at h
      simp only [ebind_ok, Except.ok.injEq] at h
      rw [← h]
  · cases hp : parse_percent_good d off nc with
    | error e => rw [hp] at h; simp at h
    | ok v =>
      rw [hp] at h
      simp only [ebind_ok, Except.ok.injEq] at h
      rw [← h]
  · cases hb : parse_bottom_track d off with
    | error e => rw [hb] at h; simp at h
    | ok v =>
      rw [hb] at h
      simp only [ebind_ok, Except.ok.injEq] at h
      rw [← h]
  · simp only [Except.ok.injEq] at h
    rw [← h]

theorem processSubblocks_velocity (d : Bytes) (nc i ensPos : ℕ) :
    ∀ k j out out', processSubblocks d nc i ensPos k j out = .ok out' →
      out'.n_ensembles = out.n_ensembles ∧ out'.n_cells = out.n_cells ∧
      out'.velocity.length = out.velocity.length ∧
      (∀ m, m ≠ i → out'.velocity[m]? = out.velocity[m]?) ∧
      (∀ r ∈ out'.velocity, r ∈ out.velocity ∨ (r.length = nc ∧ ∀ c ∈ r, c.length = 4)) := by
  intro k
  induction k with
  | zero =>
    intro j out out' h
    simp only [processSubblocks, Except.ok.injEq] at h
    rw [← h]
    exact ⟨rfl, rfl, rfl, fun m _ => rfl, fun r hr => Or.inl hr⟩
  | succ k ih =>
    intro j out out' h
    simp only [processSubblocks] at h
    cases hoff : readU16E d (ensPos + 6 + 2 * j) with
    | error e => rw [hoff] at h; simp at h
    | ok dtOff =>
    rw [hoff] at h
    simp only [ebind_ok] at h
    cases hid : readU16E d (ensPos + dtOff) with
    | error e => rw [hid] at h; simp at h
    | ok dtId =>
    rw [hid] at h
    simp only [ebind_ok] at h
    cases hdp : dispatchBlock d nc i (ensPos + dtOff) dtId out with
    | error e => rw [hdp] at h; simp at h
    | ok out1 =>
    rw [hdp] at h
    simp only [ebind_ok] at h
    rcases dispatchBlock_velocity d nc i (ensPos + dtOff) dtId out out1 hdp with
      ⟨e1, c1, l1, m1, r1⟩
    rcases ih (j + 1) out1 out' h with ⟨e2, c2, l2, m2, r2⟩
    refine ⟨e2.trans e1, c2.trans c1, l2.trans l1,
      fun m hm => (m2 m hm).trans (m1 m hm), fun r hr => ?_⟩
    rcases r2 r hr with hro | hrs
    · exact r1 r hro
    · exact Or.inr hrs

theorem processSubblocks_velocity_const (d : Bytes) (nc i ensPos : ℕ) :
    ∀ k j out out' ids, processSubblocks d nc i ensPos k j out = .ok out' →
      dtIdsAux d ensPos k j = .ok ids → PD0_VELOCITY ∉ ids →
      out'.velocity = out.velocity := by
  intro k
  induction k with
  | zero =>
    intro j out out' ids h _ _
    simp only [processSubblocks, Except.ok.injEq] at h
    rw [← h]
  | succ k ih =>
    intro j out out' ids h hids hmem
    simp only [processSubblocks] at h
    simp only [dtIdsAux] at hids
    cases hoff : readU16E d (ensPos + 6 + 2 * j) with
    | error e => rw [hoff] at h; simp at h
    | ok dtOff =>
    rw [hoff] at h hids
    simp only [ebind_ok] at h hids
    cases hid : readU16E d (ensPos + dtOff) with
    | error e => rw [hid] at h; simp at h
    | ok dtId =>
    rw [hid] at h hids
    simp only [ebind_ok] at h hids
    cases hrest : dtIdsAux d ensPos k (j + 1) with
    | error e => rw [hrest] at hids; simp at hids
    | ok rest =>
    rw [hrest] at hids
    simp only [ebind_ok, Except.ok.injEq] at hids
    rw [← hids] at hmem
    have hne : dtId ≠ PD0_VELOCITY := fun hh => hmem (by rw [hh]; exact List.mem_cons_self _ _)
    have hnrest : PD0_VELOCITY ∉ rest := fun hh => hmem (List.mem_cons_of_mem _ hh)
    cases hdp : dispatchBlock d nc i (ensPos + dtOff) dtId out with
    | error e => rw [hdp] at h; simp at h
    | ok out1 =>
    rw [hdp] at h
    simp only [ebind_ok] at h
    have h1 := dispatchBlock_velocity_const d nc i (ensPos + dtOff) dtId out out1 hne hdp
    have h2 := ih (j + 1) out1 out' rest h hrest hnrest
    rw [h2, h1]

theorem processEnsembles_velocity (d : Bytes) (nc : ℕ) :
    ∀ l out out', processEnsembles d nc l out = .ok out' →
      out'.n_ensembles = out.n_ensembles ∧ out'.n_cells = out.n_cells ∧
      out'.velocity.length = out.velocity.length ∧
      (∀ r ∈ out'.velocity, r ∈ out.velocity ∨ (r.length = nc ∧ ∀ c ∈ r, c.length = 4)) := by
  intro l
  induction l with
  | nil =>
    intro out out' h
    simp only [processEnsembles, Except.ok.injEq] at h
    rw [← h]
    exact ⟨rfl, rfl, rfl, fun r hr => Or.inl hr⟩
  | cons ie rest ih =>
    intro out out' h
    simp only [processEnsembles, processEnsemble] at h
    cases hstep : processSubblocks d nc ie.1 ie.2 (d.getD (ie.2 + 5) 0) 0 out with
    | error e => rw [hstep] at h; simp at h
    | ok out1 =>
    rw [hstep] at h
    simp only [ebind_ok] at h
    rcases processSubblocks_velocity d nc ie.1 ie.2 _ 0 out out1 hstep with ⟨e1, c1, l1, _, r1⟩
    rcases ih out1 out' h with ⟨e2, c2, l2, r2⟩
    refine ⟨e2.trans e1, c2.trans c1, l2.trans l1, fun r hr => ?_⟩
    rcases r2 r hr with hro | hrs
    · exact r1 r hro
    · exact Or.inr hrs

theorem processEnsembles_row (d : Bytes) (nc : ℕ) :
    ∀ l out out', processEnsembles d nc l out = .ok out' →
      ∀ (i p : ℕ) ids, (∀ q, (i, q) ∈ l → q = p) → ensembleDtIds d p = .ok ids →
        PD0_VELOCITY ∉ ids → out'.velocity[i]? = out.velocity[i]? := by
  intro l
  induction l with
  | nil =>
    intro out out' h i p ids _ _ _
    simp only [processEnsembles, Except.ok.injEq] at h
    rw [← h]
  | cons ie rest ih =>
    intro out out' h i p ids hq hids hmem
    simp only [processEnsembles, processEnsemble] at h
    cases hstep : processSubblocks d nc ie.1 ie.2 (d.getD (ie.2 + 5) 0) 0 out with
    | error e => rw [hstep] at h; simp at h
    | ok out1 =>
    rw [hstep] at h
    simp only [ebind_ok] at h
    have htail := ih out1 out' h i p ids (fun q hqr => hq q (List.mem_cons_of_mem ie hqr))
      hids hmem
    by_cases hmi : ie.1 = i
    · have hqp : ie.2 = p := by
        have := hq ie.2 (by rw [← hmi]; exact List.mem_cons_self _ _)
        exact this
      rw [hmi, hqp] at hstep
      have hconst := processSubblocks_velocity_const d nc i p _ 0 out out1 ids hstep
        (by exact hids) hmem
      rw [htail, hconst]
    · rcases processSubblocks_velocity d nc ie.1 ie.2 _ 0 out out1 hstep with ⟨_, _, _, hm, _⟩
      rw [htail, hm i (fun hh => hmi hh.symm)]

theorem parse_adc_processEnsembles (d : Bytes) (ens : List ℕ) (fl : FixedLeader)
    (hscan : ensScan d = .ok (ens, some fl)) :
    parse_adc d = processEnsembles d fl.n_cells ens.enum
      ⟨fl, ens.length, fl.n_cells,
        List.replicate ens.length 0, List.replicate ens.length 0, List.replicate ens.length 0,
        List.replicate ens.length 0, List.replicate ens.length 0, List.replicate ens.length 0,
        List.replicate ens.length 0, List.replicate ens.length 0,
        List.replicate ens.length 0, List.replicate ens.length 0, List.replicate ens.length 0,
        List.replicate ens.length 0, List.replicate ens.length 0, List.replicate ens.length 0,
        List.replicate ens.length (List.replicate fl.n_cells (List.replicate 4 (-32768))),
        List.replicate ens.length (List.replicate fl.n_cells (List.replicate 4 0)),
        List.replicate ens.length (List.replicate fl.n_cells (List.replicate 4 0)),
        List.replicate ens.length (List.replicate fl.n_cells (List.replicate 4 0)),
        List.replicate ens.length (List.replicate 4 0),
        List.replicate ens.length (List.replicate 4 0)⟩ := by
  unfold parse_adc
  rw [hscan]
  rfl

/-- C8 (confirmed): for a successfully parsed ensemble stream, the
velocity output has shape `[n_ensembles][n_cells][4]` (`n_cells` read
from the configuration block pass 1 found), and every ensemble whose
sub-block table carries no velocity tag keeps the -32768 pre-fill in
its entire row — with no error raised for the missing sub-block. -/
theorem C8_velocity (d : Bytes) (ens : List ℕ) (fl : FixedLeader) (out : AdcOut)
    (hscan : ensScan d = .ok (ens, some fl)) (hok : parse_adc d = .ok out) :
    (out.velocity.length = out.n_ensembles ∧
      ∀ r ∈ out.velocity, r.length = out.n_cells ∧ ∀ c ∈ r, c.length = 4) ∧
    (∀ (i p : ℕ) (ids : List ℕ), ens[i]? = some p → ensembleDtIds d p = .ok ids →
      PD0_VELOCITY ∉ ids →
      out.velocity[i]? = some (List.replicate out.n_cells (List.replicate 4 (-32768)))) := by
  rw [parse_adc_processEnsembles d ens fl hscan] at hok
  rcases processEnsembles_velocity d fl.n_cells ens.enum _ out hok with ⟨he, hc, hl, hr⟩
  have hcell : out.n_cells = fl.n_cells := hc
  have hensn : out.n_ensembles = ens.length := he
  constructor
  · constructor
    · rw [hl, hensn]
      simp
    · intro r hrr
      rcases hr r hrr with hro | hrs
      · have hrep := List.eq_of_mem_replicate hro
        rw [hrep, hcell]
        refine ⟨by simp, fun c hcc => ?_⟩
        have := List.eq_of_mem_replicate hcc
        rw [this]
        simp
      · rw [hcell]
        exact hrs
  · intro i p ids hi hids hmem
    have hq : ∀ q, (i, q) ∈ ens.enum → q = p := by
      intro q hqe
      have hgot := (List.mk_mem_enum_iff_getElem?).mp hqe
      rw [hi] at hgot
      exact (Option.some_inj.mp hgot).symm
    have hrow := processEnsembles_row d fl.n_cells ens.enum _ out hok i p ids hq hids hmem
    have hlt : i < ens.length := by
      by_contra hge
      rw [List.getElem?_eq_none (by omega)] at hi
      exact Option.noConfusion hi
    rw [hrow, hcell]
    simp [List.getElem?_replicate_of_lt hlt]

/-- C8 witness: the two-ensemble buffer whose second ensemble has an
empty sub-block table — its velocity row keeps the -32768 pre-fill. -/
theorem C8_witness :
    adcTwoOut.velocity[1]? =
      some (List.replicate adcTwoOut.n_cells (List.replicate 4 (-32768))) :=
  (C8_velocity adcTwoEns [0, 54] adcFL adcTwoOut (by decide) (by rfl)).2 1 54 []
    (by decide) (by decide) (by decide)
